import Mathlib

/-!
Verification development for the record-canonicalization core of the
conversor repository (src/clientes.py, src/fornecedores.py).

Strings are modelled as Lean `String`/`List Char`; Python `float`/NaN cells
are modelled as `Option String` (`none` = absent/NaN).  All functions below
are shallow embeddings translated from the Python source; each definition
cites the function it embeds.
-/

/-- Digit character class, Python regex `\d` restricted to ASCII digits
(the only digits these inputs produce). -/
def isDigitC (c : Char) : Bool := 48 ≤ c.toNat && c.toNat ≤ 57

/-- Python whitespace (the set stripped by `str.strip()` and matched by `\s`
on `str` patterns). -/
def pyIsSpace (c : Char) : Bool :=
  let n := c.toNat
  (9 ≤ n && n ≤ 13) || (28 ≤ n && n ≤ 31) || n == 32 || n == 133 || n == 160 ||
  n == 0x1680 || (0x2000 ≤ n && n ≤ 0x200A) || n == 0x2028 || n == 0x2029 ||
  n == 0x202F || n == 0x205F || n == 0x3000

/-- `List.dropWhile` from the right end (helper for `str.strip()` etc.). -/
def dropTrailingIf (p : Char → Bool) : List Char → List Char
  | [] => []
  | c :: t =>
    let r := dropTrailingIf p t
    if r.isEmpty then (if p c then [] else [c]) else c :: r

/-- Python `str.strip()` on a char list. -/
def pyStripL (l : List Char) : List Char :=
  dropTrailingIf pyIsSpace (l.dropWhile pyIsSpace)

/-- Python `str.strip()`. -/
def pyStrip (s : String) : String := String.mk (pyStripL s.data)

/-- Value of a digit character. -/
def charVal (c : Char) : Nat := c.toNat - 48

/-- The digit character for a value `< 10` (total, clamping elsewhere). -/
def digitChar10 (d : Nat) : Char :=
  match d with
  | 0 => '0' | 1 => '1' | 2 => '2' | 3 => '3' | 4 => '4'
  | 5 => '5' | 6 => '6' | 7 => '7' | 8 => '8' | _ => '9'

/-- Numeric value of a digit list (most significant first). -/
def natFromDigits (l : List Char) : Nat :=
  l.foldl (fun a c => 10 * a + charVal c) 0

/-- Fuel-driven decimal printer (fuel bounds the digit count). -/
def natReprGo : Nat → Nat → List Char
  | 0, _ => []
  | f + 1, n => if n < 10 then [digitChar10 n] else natReprGo f (n / 10) ++ [digitChar10 (n % 10)]

/-- Decimal digit list of a natural number (standard decimal notation,
as produced by Python `str`/`format`). -/
def natReprL (n : Nat) : List Char := natReprGo (n + 1) n

/-- Leading-zero stripping as performed by `Decimal` coefficient
normalization: drop leading `'0'`s, keep a single `'0'` if nothing is left. -/
def lstrip0 (l : List Char) : List Char :=
  let t := l.dropWhile (fun c => c == '0')
  if t.isEmpty then ['0'] else t

/-- `s.zfill(n)` for a digit string (clientes.py/fornecedores.py use it only
on all-digit strings). -/
def zfill (n : Nat) (l : List Char) : List Char :=
  List.replicate (n - l.length) '0' ++ l

/-- Full match of `\d+\.0` (the trailing-`.0` spreadsheet artifact rule of
`_only_digits`). -/
def isIntDot0 (l : List Char) : Bool :=
  let n := l.length
  decide (3 ≤ n) && (l.take (n - 2)).all isDigitC && decide (l.drop (n - 2) = ['.', '0'])

/-- Full-match parse of `[+-]?\d+(\.\d+)?([eE][+-]?\d+)?` used by
`_only_digits` to detect numeric notation.  Returns
(negative, integer digits, fraction digits, exponent). -/
def parseSci (l : List Char) : Option (Bool × List Char × List Char × Int) :=
  let neg : Bool := l.head? = some '-'
  let r1 := if l.head? = some '+' ∨ l.head? = some '-' then l.tail else l
  let intD := r1.takeWhile isDigitC
  let r2 := r1.dropWhile isDigitC
  if intD.isEmpty then none else
  let hasDot : Bool := r2.head? = some '.'
  let fracD := if hasDot then r2.tail.takeWhile isDigitC else []
  let r3 := if hasDot then r2.tail.dropWhile isDigitC else r2
  if hasDot && fracD.isEmpty then none else
  if r3.isEmpty then some (neg, intD, fracD, 0) else
  if !(r3.head? = some 'e' ∨ r3.head? = some 'E' : Bool) then none else
  let r4 := r3.tail
  let eneg : Bool := r4.head? = some '-'
  let r5 := if r4.head? = some '+' ∨ r4.head? = some '-' then r4.tail else r4
  let expD := r5.takeWhile isDigitC
  let r6 := r5.dropWhile isDigitC
  if expD.isEmpty || !r6.isEmpty then none
  else some (neg, intD, fracD, if eneg then -(natFromDigits expD : Int) else (natFromDigits expD : Int))

/-- `format(Decimal(s).quantize(0), "f")` on the parsed numeric parts:
the coefficient is the leading-zero-normalized digit string, the exponent is
`exp - len(frac)`; quantizing to exponent 0 rounds half-even and raises
`InvalidOperation` (modelled as `none`) when the result would exceed the
28-digit default precision.  On success the plain-format string is returned. -/
def decimalQuantizeFmt : Bool × List Char × List Char × Int → Option (List Char)
  | (neg, intD, fracD, exp) =>
    let coeff := lstrip0 (intD ++ fracD)
    let sign : List Char := if neg then ['-'] else []
    let e : Int := exp - (fracD.length : Int)
    if coeff = ['0'] then some (sign ++ ['0'])
    else if 0 ≤ e then
      if 28 < coeff.length + e.toNat then none
      else some (sign ++ coeff ++ List.replicate e.toNat '0')
    else
      let j := (-e).toNat
      let m := natFromDigits coeff
      let q0 := m / 10 ^ j
      let r := m % 10 ^ j
      let h := 5 * 10 ^ (j - 1)
      let q := if h < r ∨ (r = h ∧ q0 % 2 = 1) then q0 + 1 else q0
      if 10 ^ 28 ≤ q then none else some (sign ++ natReprL q)

/-- `_only_digits` (clientes.py:20 and fornecedores.py:20) on a string cell:
strip, drop a literal `.0` suffix, normalize numeric/scientific notation via
`Decimal(...).quantize(0)`, then delete every non-digit. -/
def onlyDigitsL (l : List Char) : List Char :=
  let s1 := pyStripL l
  let s2 := if isIntDot0 s1 then s1.take (s1.length - 2) else s1
  let s3 :=
    match parseSci s2 with
    | none => s2
    | some parts =>
      match decimalQuantizeFmt parts with
      | none => s2
      | some out => out
  s3.filter isDigitC

/-- `_only_digits` on a `String`. -/
def only_digits (s : String) : String := String.mk (onlyDigitsL s.data)

/-- `_mask_cpf` (clientes.py:47): `num11[0:3].num11[3:6].num11[6:9]-num11[9:11]`. -/
def mask_cpf_L (d : List Char) : List Char :=
  d.take 3 ++ '.' :: ((d.drop 3).take 3 ++ '.' :: ((d.drop 6).take 3 ++ '-' :: (d.drop 9).take 2))

/-- `_mask_cnpj` (clientes.py:50): `num14[0:2].num14[2:5].num14[5:8]/num14[8:12]-num14[12:14]`. -/
def mask_cnpj_L (d : List Char) : List Char :=
  d.take 2 ++ '.' :: ((d.drop 2).take 3 ++ '.' :: ((d.drop 5).take 3 ++ '/' :: ((d.drop 8).take 4 ++ '-' :: (d.drop 12).take 2)))

/-- `_mask_cep` (clientes.py:53): `num8[0:5]-num8[5:8]`. -/
def mask_cep_L (d : List Char) : List Char :=
  d.take 5 ++ '-' :: (d.drop 5).take 3

/-- `_smart_cpf_cnpj_mask` (clientes.py:173, fornecedores.py:170 — the two
files contain the same function): classify by digit count. -/
def smart_cpf_cnpj_mask_L (l : List Char) : List Char :=
  let d := onlyDigitsL l
  if d.length = 0 then []
  else if d.length = 11 then mask_cpf_L d
  else if d.length = 14 then mask_cnpj_L d
  else if 8 < d.length ∧ d.length < 11 then mask_cpf_L (zfill 11 d)
  else if 11 < d.length ∧ d.length < 14 then mask_cnpj_L (zfill 14 d)
  else d

/-- `_smart_cpf_cnpj_mask` on `String`. -/
def smart_cpf_cnpj_mask (s : String) : String := String.mk (smart_cpf_cnpj_mask_L s.data)

/-- `_smart_cep_mask` (clientes.py:199, fornecedores.py:184): fall back to the
default's digits when the raw value has none, left-pad to 8, keep the last 8,
mask `XXXXX-XXX`. -/
def smart_cep_mask_L (raw pad : List Char) : List Char :=
  let d0 := onlyDigitsL raw
  let d1 := if d0.length = 0 then onlyDigitsL pad else d0
  let d2 :=
    if d1.length < 8 then zfill 8 d1
    else if 8 < d1.length then d1.drop (d1.length - 8)
    else d1
  mask_cep_L d2

/-- `_smart_cep_mask` on `String`. -/
def smart_cep_mask (raw pad : String) : String := String.mk (smart_cep_mask_L raw.data pad.data)

/-!
Character tables below model the Python Unicode behavior over the
Latin-1 / cp1252 repertoire that this pipeline manipulates (spreadsheet text
run through the latin1/cp1252 codecs); outside that repertoire they default
to the identity / `false`, which no theorem in this file depends on.
-/

/-- ASCII alphanumeric, the regex class `[A-Za-z0-9]`. -/
def alnumB (c : Char) : Bool :=
  let n := c.toNat
  (65 ≤ n && n ≤ 90) || (97 ≤ n && n ≤ 122) || (48 ≤ n && n ≤ 57)

/-- Characters kept by the regex `[^A-Za-z0-9 ]+ -> " "` substitution. -/
def keepB (c : Char) : Bool := alnumB c || c == ' '

/-- Python `str.isalpha` restricted to the Latin-1/cp1252 repertoire. -/
def pyIsAlpha (c : Char) : Bool :=
  let n := c.toNat
  (65 ≤ n && n ≤ 90) || (97 ≤ n && n ≤ 122) ||
  n == 0xAA || n == 0xB5 || n == 0xBA ||
  (0xC0 ≤ n && n ≤ 0xFF && !(n == 0xD7) && !(n == 0xF7)) ||
  n == 0x152 || n == 0x153 || n == 0x160 || n == 0x161 ||
  n == 0x178 || n == 0x17D || n == 0x17E || n == 0x192 || n == 0x2C6

/-- Python `str.upper` per character (string-valued: `ß` upper-cases to `SS`). -/
def pyUpperChar (c : Char) : List Char :=
  let n := c.toNat
  if n < 97 then [c]
  else if n ≤ 122 then [Char.ofNat (n - 32)]
  else if n = 0xB5 then [Char.ofNat 0x39C]
  else if n = 0xDF then ['S', 'S']
  else if 0xE0 ≤ n && n ≤ 0xFE && !(n == 0xF7) then [Char.ofNat (n - 32)]
  else if n = 0xFF then [Char.ofNat 0x178]
  else if n = 0x153 then [Char.ofNat 0x152]
  else if n = 0x161 then [Char.ofNat 0x160]
  else if n = 0x17E then [Char.ofNat 0x17D]
  else [c]

/-- Python `str.upper` on a char list. -/
def pyUpperL (l : List Char) : List Char := (l.map pyUpperChar).join

/-- Python `str.lower` per character (Latin-1 repertoire). -/
def pyLowerChar (c : Char) : Char :=
  let n := c.toNat
  if 65 ≤ n && n ≤ 90 then Char.ofNat (n + 32)
  else if 0xC0 ≤ n && n ≤ 0xDE && !(n == 0xD7) then Char.ofNat (n + 32)
  else if n = 0x152 then Char.ofNat 0x153
  else if n = 0x160 then Char.ofNat 0x161
  else if n = 0x178 then Char.ofNat 0xFF
  else if n = 0x17D then Char.ofNat 0x17E
  else c

/-- Python `str.lower` on a `String`. -/
def pyLower (s : String) : String := String.mk (s.data.map pyLowerChar)

/-- Python `str.title` walker: a cased character starting a word is
upper-cased, later cased characters of the word are lower-cased. -/
def pyTitleGo (prevCased : Bool) : List Char → List Char
  | [] => []
  | c :: t =>
    (if pyIsAlpha c then (if prevCased then [pyLowerChar c] else pyUpperChar c) else [c])
      ++ pyTitleGo (pyIsAlpha c) t

/-- Python `str.title`. -/
def pyTitle (s : String) : String := String.mk (pyTitleGo false s.data)

/-- NFD decomposition per character over the Latin-1 repertoire
(base letter followed by its combining mark; non-decomposable characters map
to themselves). -/
def nfdChar (c : Char) : List Char :=
  let n := c.toNat
  if n < 0xC0 then [c] else
  match n with
  | 0xC0 => [Char.ofNat 0x41, Char.ofNat 0x300]
  | 0xC1 => [Char.ofNat 0x41, Char.ofNat 0x301]
  | 0xC2 => [Char.ofNat 0x41, Char.ofNat 0x302]
  | 0xC3 => [Char.ofNat 0x41, Char.ofNat 0x303]
  | 0xC4 => [Char.ofNat 0x41, Char.ofNat 0x308]
  | 0xC5 => [Char.ofNat 0x41, Char.ofNat 0x30A]
  | 0xC7 => [Char.ofNat 0x43, Char.ofNat 0x327]
  | 0xC8 => [Char.ofNat 0x45, Char.ofNat 0x300]
  | 0xC9 => [Char.ofNat 0x45, Char.ofNat 0x301]
  | 0xCA => [Char.ofNat 0x45, Char.ofNat 0x302]
  | 0xCB => [Char.ofNat 0x45, Char.ofNat 0x308]
  | 0xCC => [Char.ofNat 0x49, Char.ofNat 0x300]
  | 0xCD => [Char.ofNat 0x49, Char.ofNat 0x301]
  | 0xCE => [Char.ofNat 0x49, Char.ofNat 0x302]
  | 0xCF => [Char.ofNat 0x49, Char.ofNat 0x308]
  | 0xD1 => [Char.ofNat 0x4E, Char.ofNat 0x303]
  | 0xD2 => [Char.ofNat 0x4F, Char.ofNat 0x300]
  | 0xD3 => [Char.ofNat 0x4F, Char.ofNat 0x301]
  | 0xD4 => [Char.ofNat 0x4F, Char.ofNat 0x302]
  | 0xD5 => [Char.ofNat 0x4F, Char.ofNat 0x303]
  | 0xD6 => [Char.ofNat 0x4F, Char.ofNat 0x308]
  | 0xD9 => [Char.ofNat 0x55, Char.ofNat 0x300]
  | 0xDA => [Char.ofNat 0x55, Char.ofNat 0x301]
  | 0xDB => [Char.ofNat 0x55, Char.ofNat 0x302]
  | 0xDC => [Char.ofNat 0x55, Char.ofNat 0x308]
  | 0xDD => [Char.ofNat 0x59, Char.ofNat 0x301]
  | 0xE0 => [Char.ofNat 0x61, Char.ofNat 0x300]
  | 0xE1 => [Char.ofNat 0x61, Char.ofNat 0x301]
  | 0xE2 => [Char.ofNat 0x61, Char.ofNat 0x302]
  | 0xE3 => [Char.ofNat 0x61, Char.ofNat 0x303]
  | 0xE4 => [Char.ofNat 0x61, Char.ofNat 0x308]
  | 0xE5 => [Char.ofNat 0x61, Char.ofNat 0x30A]
  | 0xE7 => [Char.ofNat 0x63, Char.ofNat 0x327]
  | 0xE8 => [Char.ofNat 0x65, Char.ofNat 0x300]
  | 0xE9 => [Char.ofNat 0x65, Char.ofNat 0x301]
  | 0xEA => [Char.ofNat 0x65, Char.ofNat 0x302]
  | 0xEB => [Char.ofNat 0x65, Char.ofNat 0x308]
  | 0xEC => [Char.ofNat 0x69, Char.ofNat 0x300]
  | 0xED => [Char.ofNat 0x69, Char.ofNat 0x301]
  | 0xEE => [Char.ofNat 0x69, Char.ofNat 0x302]
  | 0xEF => [Char.ofNat 0x69, Char.ofNat 0x308]
  | 0xF1 => [Char.ofNat 0x6E, Char.ofNat 0x303]
  | 0xF2 => [Char.ofNat 0x6F, Char.ofNat 0x300]
  | 0xF3 => [Char.ofNat 0x6F, Char.ofNat 0x301]
  | 0xF4 => [Char.ofNat 0x6F, Char.ofNat 0x302]
  | 0xF5 => [Char.ofNat 0x6F, Char.ofNat 0x303]
  | 0xF6 => [Char.ofNat 0x6F, Char.ofNat 0x308]
  | 0xF9 => [Char.ofNat 0x75, Char.ofNat 0x300]
  | 0xFA => [Char.ofNat 0x75, Char.ofNat 0x301]
  | 0xFB => [Char.ofNat 0x75, Char.ofNat 0x302]
  | 0xFC => [Char.ofNat 0x75, Char.ofNat 0x308]
  | 0xFD => [Char.ofNat 0x79, Char.ofNat 0x301]
  | 0xFF => [Char.ofNat 0x79, Char.ofNat 0x308]
  | 0x160 => [Char.ofNat 0x53, Char.ofNat 0x30C]
  | 0x161 => [Char.ofNat 0x73, Char.ofNat 0x30C]
  | 0x178 => [Char.ofNat 0x59, Char.ofNat 0x308]
  | 0x17D => [Char.ofNat 0x5A, Char.ofNat 0x30C]
  | 0x17E => [Char.ofNat 0x7A, Char.ofNat 0x30C]
  | _ => [c]

/-- Unicode category Mn (combining marks), restricted to the block the
table above produces. -/
def isMnB (c : Char) : Bool := 0x300 ≤ c.toNat && c.toNat ≤ 0x36F

/-- `_strip_accents` (clientes.py:13, fornecedores.py:13) on a char list:
NFD-normalize and drop combining marks. -/
def stripAccentsL (l : List Char) : List Char :=
  ((l.map nfdChar).join).filter (fun c => !(isMnB c))

/-- `_strip_accents` on a `String` (string input is never NaN). -/
def strip_accents (s : String) : String := String.mk (stripAccentsL s.data)

/-- latin-1 (ISO-8859-1) encoding of one character, `errors="ignore"`. -/
def latin1Enc (c : Char) : Option Nat :=
  if c.toNat ≤ 0xFF then some c.toNat else none

/-- cp1252 (Windows-1252) decoding of one byte, `errors="ignore"`:
bytes 0x81, 0x8D, 0x8F, 0x90, 0x9D are undefined and dropped. -/
def cp1252Dec (b : Nat) : Option Char :=
  if b < 0x80 || 0xA0 ≤ b then some (Char.ofNat b) else
  match b with
  | 0x80 => some (Char.ofNat 0x20AC)
  | 0x82 => some (Char.ofNat 0x201A)
  | 0x83 => some (Char.ofNat 0x192)
  | 0x84 => some (Char.ofNat 0x201E)
  | 0x85 => some (Char.ofNat 0x2026)
  | 0x86 => some (Char.ofNat 0x2020)
  | 0x87 => some (Char.ofNat 0x2021)
  | 0x88 => some (Char.ofNat 0x2C6)
  | 0x89 => some (Char.ofNat 0x2030)
  | 0x8A => some (Char.ofNat 0x160)
  | 0x8B => some (Char.ofNat 0x2039)
  | 0x8C => some (Char.ofNat 0x152)
  | 0x8E => some (Char.ofNat 0x17D)
  | 0x91 => some (Char.ofNat 0x2018)
  | 0x92 => some (Char.ofNat 0x2019)
  | 0x93 => some (Char.ofNat 0x201C)
  | 0x94 => some (Char.ofNat 0x201D)
  | 0x95 => some (Char.ofNat 0x2022)
  | 0x96 => some (Char.ofNat 0x2013)
  | 0x97 => some (Char.ofNat 0x2014)
  | 0x98 => some (Char.ofNat 0x2DC)
  | 0x99 => some (Char.ofNat 0x2122)
  | 0x9A => some (Char.ofNat 0x161)
  | 0x9B => some (Char.ofNat 0x203A)
  | 0x9C => some (Char.ofNat 0x153)
  | 0x9E => some (Char.ofNat 0x17E)
  | 0x9F => some (Char.ofNat 0x178)
  | _ => none

/-- cp1252 encoding of one character, `errors="ignore"` (inverse of the
decode table; characters with no cp1252 byte are dropped). -/
def cp1252Enc (c : Char) : Option Nat :=
  let n := c.toNat
  if n < 0x80 || (0xA0 ≤ n && n ≤ 0xFF) then some n else
  match n with
  | 0x20AC => some 0x80
  | 0x201A => some 0x82
  | 0x192 => some 0x83
  | 0x201E => some 0x84
  | 0x2026 => some 0x85
  | 0x2020 => some 0x86
  | 0x2021 => some 0x87
  | 0x2C6 => some 0x88
  | 0x2030 => some 0x89
  | 0x160 => some 0x8A
  | 0x2039 => some 0x8B
  | 0x152 => some 0x8C
  | 0x17D => some 0x8E
  | 0x2018 => some 0x91
  | 0x2019 => some 0x92
  | 0x201C => some 0x93
  | 0x201D => some 0x94
  | 0x2022 => some 0x95
  | 0x2013 => some 0x96
  | 0x2014 => some 0x97
  | 0x2DC => some 0x98
  | 0x2122 => some 0x99
  | 0x161 => some 0x9A
  | 0x203A => some 0x9B
  | 0x153 => some 0x9C
  | 0x17E => some 0x9E
  | 0x178 => some 0x9F
  | _ => none

/-- `s.encode("latin1", errors="ignore").decode("cp1252", errors="ignore")`. -/
def latin1ThenCp1252 (l : List Char) : List Char :=
  (l.filterMap latin1Enc).filterMap cp1252Dec

/-- `s.encode("cp1252", errors="ignore").decode("latin1", errors="ignore")`
(latin-1 decoding is total on bytes). -/
def cp1252ThenLatin1 (l : List Char) : List Char :=
  (l.filterMap cp1252Enc).map Char.ofNat

/-- The six mojibake marker characters of `_fix_mojibake_pt`'s score. -/
def isMojibakeMarker (c : Char) : Bool :=
  c == 'Ã' || c == '¢' || c == '¡' || c == 'Â' || c == '§' || c == '¥'

/-- The candidate score of `_fix_mojibake_pt`:
`(letterCount - 2 * markerCount, -length)`. -/
def mojibakeScore (l : List Char) : Int × Int :=
  ((l.countP pyIsAlpha : Int) - 2 * (l.countP isMojibakeMarker : Int), -(l.length : Int))

/-- Strict lexicographic comparison on score pairs (Python tuple `>`). -/
def tupGtB (a b : Int × Int) : Bool := (b.1 < a.1) || (a.1 == b.1 && b.2 < a.2)

/-- Python `max([a, b, c], key=score)`: the first candidate attaining the
maximal score (a later candidate replaces only on a strictly greater key). -/
def pickMax3 (a b c : List Char) : List Char :=
  let best1 := if tupGtB (mojibakeScore b) (mojibakeScore a) then b else a
  if tupGtB (mojibakeScore c) (mojibakeScore best1) then c else best1

/-- `_fix_mojibake_pt` (fornecedores.py:56): candidates are the original
string and its two 8-bit encoding round trips; the best-scoring wins. -/
def fix_mojibake_pt (s : String) : String :=
  String.mk (pickMax3 s.data (latin1ThenCp1252 s.data) (cp1252ThenLatin1 s.data))

/-- The `[^A-Za-z0-9 ]+ -> " "` substitution: a run of dropped characters
yields a single space (flag: inside a replaced run). -/
def sub1Go : Bool → List Char → List Char
  | _, [] => []
  | inRun, c :: t =>
    if keepB c then c :: sub1Go false t
    else if inRun then sub1Go true t
    else ' ' :: sub1Go true t

/-- The `\s+ -> " "` substitution (flag: inside a whitespace run). -/
def collapseWsGo : Bool → List Char → List Char
  | _, [] => []
  | inRun, c :: t =>
    if pyIsSpace c then
      (if inRun then collapseWsGo true t else ' ' :: collapseWsGo true t)
    else c :: collapseWsGo false t

/-- `_sanitize_text` (clientes.py:56): strip accents, keep only
alphanumerics and spaces, collapse whitespace, trim. -/
def sanitize_text_clientes (s : String) : String :=
  String.mk (pyStripL (collapseWsGo false (sub1Go false (stripAccentsL s.data))))

/-- `_sanitize_text` (fornecedores.py:78): like the client variant but with
mojibake repair before accent stripping. -/
def sanitize_text_fornecedores (s : String) : String :=
  String.mk (pyStripL (collapseWsGo false (sub1Go false (stripAccentsL (fix_mojibake_pt s).data))))

/-- `_normalize_city` (clientes.py:170, fornecedores.py:167):
`_strip_accents(s).upper().strip()`. -/
def normalize_city (s : String) : String :=
  String.mk (pyStripL (pyUpperL (stripAccentsL s.data)))

/-- `_format_phone_with_ddd` (clientes.py:209 — no space after the closing
parenthesis in the client variant). -/
def format_phone_with_ddd_c (ddd loc : List Char) : List Char :=
  let d0 := zfill 2 (onlyDigitsL ddd)
  let d := d0.drop (d0.length - 2)
  if loc.length = 8 then '(' :: d ++ ')' :: (loc.take 4 ++ '-' :: loc.drop 4)
  else if loc.length = 9 then '(' :: d ++ ')' :: (loc.take 5 ++ '-' :: loc.drop 5)
  else loc

/-- `_smart_phone_mask` (clientes.py:219): keep last 11 digits; fewer than 8
digits are returned bare; 8/9 digits get the default area code; 10/11 digits
carry their own. -/
def smart_phone_mask_c_L (raw ddd : List Char) : List Char :=
  let d0 := onlyDigitsL raw
  if d0.isEmpty then [] else
  let d := if 11 < d0.length then d0.drop (d0.length - 11) else d0
  if d.length < 8 then d
  else if d.length = 8 ∨ d.length = 9 then format_phone_with_ddd_c ddd d
  else if d.length = 10 then '(' :: d.take 2 ++ ')' :: ((d.drop 2).take 4 ++ '-' :: (d.drop 2).drop 4)
  else if d.length = 11 then '(' :: d.take 2 ++ ')' :: ((d.drop 2).take 5 ++ '-' :: (d.drop 2).drop 5)
  else d

/-- `_smart_phone_mask` (clientes.py) on `String`. -/
def smart_phone_mask_c (raw ddd : String) : String :=
  String.mk (smart_phone_mask_c_L raw.data ddd.data)

/-- The trailing class `[.,;:\s]+` removed before address-number matching. -/
def isPunctTail (c : Char) : Bool :=
  c == '.' || c == ',' || c == ';' || c == ':' || pyIsSpace c

/-- The character class `[\/\s]` inside the no-number token. -/
def snClass (c : Char) : Bool := c == '/' || pyIsSpace c

/-- Does the list match `S[\/\s]*N\.?` to its very end (the suffix part of
`\bS[\/\s]*N\.?$`, case-insensitive)? -/
def snSuffix : List Char → Bool
  | [] => false
  | c :: t =>
    (c == 'S' || c == 's') &&
      (match t.dropWhile snClass with
       | n :: r => (n == 'N' || n == 'n') && (decide (r = []) || decide (r = ['.']))
       | [] => false)

/-- Word character for `\b` (ASCII plus Latin-1 letters). -/
def wordCharB (c : Char) : Bool :=
  alnumB c || c == '_' ||
  (0xC0 ≤ c.toNat && c.toNat ≤ 0xFF && !(c.toNat = 0xD7 : Bool) && !(c.toNat = 0xF7 : Bool))

/-- `re.search(r"\bS[\/\s]*N\.?$", s)`: some suffix matches the token with a
word boundary before its `S`. -/
def snSearchGo (prev : Option Char) : List Char → Bool
  | [] => false
  | c :: t =>
    ((match prev with | none => true | some p => !(wordCharB p)) && snSuffix (c :: t))
      || snSearchGo (some c) t

/-- `re.search(r"(\d+)$", s)`: the maximal trailing digit run. -/
def trailingDigits (l : List Char) : List Char :=
  (l.reverse.takeWhile isDigitC).reverse

/-- `_extract_num_from_endereco` (clientes.py:254, fornecedores.py:220):
strip/upper-case, drop trailing punctuation, then the no-number token wins
over a trailing digit run; empty string when neither matches. -/
def extract_num_from_endereco (s : String) : String :=
  if s = "" then "" else
  let u := dropTrailingIf isPunctTail (pyUpperL (pyStripL s.data))
  if snSearchGo none u then "SN"
  else String.mk (trailingDigits u)

/-- Does this suffix match `(\d+|S[\/\s]*N)\s*$` (the removal pattern used in
the pipelines at clientes.py:355 / fornecedores.py:466, IGNORECASE)? -/
def remTokSuffix (l : List Char) : Bool :=
  (match l with
   | c :: _ => isDigitC c && (l.dropWhile isDigitC).all pyIsSpace
   | [] => false)
  ||
  (match l with
   | c :: t =>
     (c == 'S' || c == 's') &&
       (match t.dropWhile snClass with
        | n :: r => (n == 'N' || n == 'n') && r.all pyIsSpace
        | [] => false)
   | [] => false)

/-- `re.sub(r"(\d+|S[\/\s]*N)\s*$", "", s, flags=IGNORECASE)`: delete the
leftmost suffix matching the pattern (a match always extends to the end). -/
def removeTokGo : List Char → List Char
  | [] => []
  | c :: t => if remTokSuffix (c :: t) then [] else c :: removeTokGo t

/-- The pipeline's address rewrite after a successful number extraction
(clientes.py:355-356): `re.sub(pattern, "", str(val).upper()).strip()`. -/
def strip_num_tail (s : String) : String :=
  String.mk (pyStripL (removeTokGo (pyUpperL s.data)))

/-- A headerless reference table as pandas delivers it (`header=None,
dtype=str`): rectangular rows of string cells, `ncols` columns; a missing
cell reads as `""` (`fillna("")`). -/
structure RefTable where
  ncols : Nat
  rows : List (List String)

/-- `_load_municipios` (clientes.py:160-168): name from column 3, code from
column 1; insert `normalized name -> cod.strip()` whenever the normalized
name is non-empty (the code is never validated).  Later rows overwrite
earlier ones (dict assignment); the list is consed so that `List.lookup`
finds the latest binding. -/
def load_municipios_clientes (t : RefTable) : List (String × String) :=
  t.rows.foldl
    (fun m r =>
      let key := normalize_city (r.getD 3 "")
      if key ≠ "" then (key, pyStrip (r.getD 1 "")) :: m else m)
    []

/-- Exactly seven ASCII digits (`re.fullmatch(r"\d{7}", ...)`). -/
def is7digits (s : String) : Bool := s.data.length == 7 && s.data.all isDigitC

/-- Exactly two upper-case ASCII letters (`^[A-Z]{2}$`). -/
def isUF2 (s : String) : Bool :=
  s.data.length == 2 && s.data.all (fun c => 65 ≤ c.toNat && c.toNat ≤ 90)

/-- The four lookup maps of `_load_municipios_auto` (fornecedores.py:240). -/
structure MuniMaps where
  name_to_code : List (String × String)
  code_to_name : List (String × String)
  code_to_uf : List (String × String)
  name_to_uf : List (String × String)

/-- One iteration of the build loop of `_load_municipios_auto`
(fornecedores.py:332-341): a row is inserted only when the normalized name
is non-empty and the code is exactly seven digits; the UF maps additionally
require a two-letter code. -/
def muniStep (m : MuniMaps) (row : String × String × String) : MuniMaps :=
  let nome := row.1
  let cod := row.2.1
  let uf := row.2.2
  let nome_norm := normalize_city nome
  let cod_norm := pyStrip cod
  let uf_norm := String.mk (pyUpperL (pyStripL uf.data))
  if nome_norm ≠ "" ∧ is7digits cod_norm then
    let m1 := { m with
      name_to_code := (nome_norm, cod_norm) :: m.name_to_code,
      code_to_name := (cod_norm, pyTitle (pyStrip nome)) :: m.code_to_name }
    if uf_norm ≠ "" ∧ isUF2 uf_norm then
      { m1 with
        code_to_uf := (cod_norm, uf_norm) :: m1.code_to_uf,
        name_to_uf := (nome_norm, uf_norm) :: m1.name_to_uf }
    else m1
  else m

/-- The build loop of `_load_municipios_auto` (fornecedores.py:331-343). -/
def buildMuniMaps (rows : List (String × String × String)) : MuniMaps :=
  rows.foldl muniStep ⟨[], [], [], []⟩

/-- ASCII letter (`[A-Za-z]`). -/
def asciiLetterB (c : Char) : Bool :=
  (65 ≤ c.toNat && c.toNat ≤ 90) || (97 ≤ c.toNat && c.toNat ≤ 122)

/-- Per-column score `alpha - digits` of the name auto-detection
(fornecedores.py:277-281). -/
def colAlphaMinusDigits (t : RefTable) (i : Nat) : Int :=
  t.rows.foldl
    (fun a r =>
      a + ((r.getD i "").data.countP asciiLetterB : Int)
        - ((r.getD i "").data.countP isDigitC : Int))
    0

/-- `scores.sort(reverse=True); scores[0][1]`: the lexicographic maximum of
`(score, index)` pairs — on equal scores the higher index wins. -/
def argmaxPairHi (scores : List (Int × Nat)) : Option Nat :=
  (scores.foldl
    (fun best p =>
      match best with
      | none => some p
      | some b => if p.1 > b.1 ∨ (p.1 = b.1 ∧ p.2 > b.2) then some p else some b)
    none).map Prod.snd

/-- Name-column choice (fornecedores.py:272-283): column 3 outright when the
table has more than 3 columns, otherwise the most alphabetic column among
the first 8. -/
def nomeIdxAuto (t : RefTable) : Option Nat :=
  if 3 < t.ncols then some 3
  else argmaxPairHi ((List.range (min t.ncols 8)).map (fun i => (colAlphaMinusDigits t i, i)))

/-- Number of cells in column `i` whose extracted digits match `^\d{7}$`
(fornecedores.py:286-293). -/
def sevenHits (t : RefTable) (i : Nat) : Nat :=
  t.rows.countP (fun r => is7digits (only_digits (r.getD i "")))

/-- Number of cells in column `i` that strip/upper to `^[A-Z]{2}$`
(fornecedores.py:311-313). -/
def ufHits (t : RefTable) (i : Nat) : Nat :=
  t.rows.countP (fun r => isUF2 (String.mk (pyUpperL (pyStripL (r.getD i "").data))))

/-- Code-column choice (fornecedores.py:289-307): prefer column 1, scan the
first 12 columns (skipping the name column, first maximum wins), and
override the preference only on strictly more seven-digit hits. -/
def ibgeIdxAuto (t : RefTable) (nome : Nat) : Option Nat :=
  let init : Option Nat := if 1 < t.ncols then some 1 else none
  let initHits : Int := match init with | some i => (sevenHits t i : Int) | none => -1
  let best := ((List.range (min t.ncols 12)).filter (fun i => i ≠ nome)).foldl
    (fun (b : Option Nat × Int) i =>
      if (sevenHits t i : Int) > b.2 then (some i, (sevenHits t i : Int)) else b)
    (none, -1)
  if best.2 > initHits then best.1 else init

/-- Region-column choice (fornecedores.py:315-327): prefer column 4, scan
the first 12 columns (skipping name and code columns), override only on
strictly more two-letter hits. -/
def ufIdxAuto (t : RefTable) (nome ibge : Nat) : Option Nat :=
  let init : Option Nat := if 4 < t.ncols then some 4 else none
  let initHits : Int := match init with | some i => (ufHits t i : Int) | none => -1
  let best := ((List.range (min t.ncols 12)).filter (fun i => i ≠ nome ∧ i ≠ ibge)).foldl
    (fun (b : Option Nat × Int) i =>
      if (ufHits t i : Int) > b.2 then (some i, (ufHits t i : Int)) else b)
    (none, -1)
  if best.2 > initHits then best.1 else init

/-- The full role assignment of `_load_municipios_auto`: name, then code
(required — `none` models the `ValueError`), then region (optional). -/
def detectRolesAuto (t : RefTable) : Option (Nat × Nat × Option Nat) :=
  match nomeIdxAuto t with
  | none => none
  | some nome =>
    match ibgeIdxAuto t nome with
    | none => none
    | some ibge => some (nome, ibge, ufIdxAuto t nome ibge)

/-- `_load_municipios_auto` (fornecedores.py:240-343) after the file read:
detect roles, extract the three columns, build the four maps. -/
def load_municipios_auto (t : RefTable) : Option MuniMaps :=
  (detectRolesAuto t).map
    (fun roles =>
      let nome := roles.1
      let ibge := roles.2.1
      let uf := roles.2.2
      buildMuniMaps (t.rows.map (fun r =>
        (r.getD nome "",
         only_digits (r.getD ibge ""),
         match uf with
         | some u => String.mk (pyUpperL (pyStripL (r.getD u "").data))
         | none => ""))))

/-- The logical fields of the client schema, in the order the guarantee loop
of `_best_guess_columns` (clientes.py:113-126) walks them. -/
def clientes_keys : List String :=
  ["uf", "cpf_cnpj", "cep", "cidade", "codigo_cidade", "razao_nome", "endereco",
   "bairro", "complemento", "contato", "fantasia_apelido", "tel_principal",
   "tel_comercial", "numero"]

/-- Candidate header names per logical field (clientes.py:86-104). -/
def clientes_cands (k : String) : List String :=
  if k = "uf" then ["uf", "estado", "sigla_uf"]
  else if k = "cpf_cnpj" then ["cpf_cnpj", "cpfcnpj", "documento", "doc", "cnpjcpf"]
  else if k = "cep" then ["cep", "codigo_postal"]
  else if k = "cidade" then ["cidade", "municipio", "municipío", "município"]
  else if k = "codigo_cidade" then ["codigo_cidade", "cod_cidade", "codigo_municipio", "cod_municipio", "ibge"]
  else if k = "razao_nome" then ["razao_nome", "razão_nome", "razao", "razão", "razao social", "razao_social", "nome", "nome_razao"]
  else if k = "endereco" then ["endereco", "endereço", "logradouro"]
  else if k = "bairro" then ["bairro"]
  else if k = "complemento" then ["complemento", "compl"]
  else if k = "contato" then ["contato", "responsavel", "responsável"]
  else if k = "fantasia_apelido" then ["fantasia_apelido", "fantasia", "apelido", "nome_fantasia"]
  else if k = "tel_principal" then ["tel_principal", "telefone", "telefone1", "tel1", "fone", "fone1"]
  else if k = "tel_comercial" then ["tel_comercial", "telefone2", "tel2", "fone2"]
  else if k = "numero" then ["numero", "número", "num"]
  else []

/-- Substring test (Python `small in big`). -/
def hasSubstr (small : List Char) : List Char → Bool
  | [] => small.isEmpty
  | c :: t => small.isPrefixOf (c :: t) || hasSubstr small t

/-- `cols_lower = {c.lower(): c for c in df.columns}` followed by a lookup:
the dict keeps the LAST header with a given lower-cased form. -/
def lastHeaderWithLower (headers : List String) (key : String) : Option String :=
  headers.foldl (fun acc h => if pyLower h = key then some h else acc) none

/-- `find_any` (clientes.py:76-84): first an exact case-insensitive match of
any candidate, then the first header containing any candidate as a
substring. -/
def find_any (headers : List String) (cands : List String) : Option String :=
  match cands.findSome? (fun c => lastHeaderWithLower headers (pyLower c)) with
  | some h => some h
  | none => headers.find? (fun h => cands.any (fun c => hasSubstr (pyLower c).data (pyLower h).data))

/-- The de-duplication candidates `k, k_2, k_3, ...` tried by the
`while new_name in df.columns` loop; `cols.length + 2` candidates always
contain a free one. -/
def freshCandidates (base : String) (cols : List String) : List String :=
  base :: (List.range (cols.length + 1)).map (fun j => base ++ "_" ++ String.mk (natReprL (j + 2)))

/-- The first candidate name not already a column (clientes.py:118-123). -/
def freshName (base : String) (cols : List String) : String :=
  ((freshCandidates base cols).find? (fun c => !(cols.contains c))).getD base

/-- The guarantee loop (clientes.py:113-126): resolved fields keep their
column; unresolved ones get a fresh synthesized column appended to the
table's columns and recorded in the created-columns log. -/
def synthGo : List (String × Option String) → List String → List (String × String) → List String → List (String × String) × List String
  | [], _, acc, created => (acc, created)
  | (k, some v) :: rest, cols, acc, created => synthGo rest cols (acc ++ [(k, v)]) created
  | (k, none) :: rest, cols, acc, created =>
    let f := freshName k cols
    synthGo rest (cols ++ [f]) (acc ++ [(k, f)]) (created ++ [f])

/-- `_best_guess_columns` (clientes.py:73-128): header matching, the two
positional fallbacks (column 5 for the city, column 6 for the city code),
then synthesis of missing columns.  Returns the logical-to-physical map and
the created-columns log. -/
def best_guess_columns_clientes (headers : List String) : List (String × String) × List String :=
  let base0 := clientes_keys.map (fun k => (k, find_any headers (clientes_cands k)))
  let base1 := base0.map (fun p =>
    if p.1 = "cidade" ∧ p.2 = none ∧ 5 < headers.length then (p.1, headers.get? 5)
    else if p.1 = "codigo_cidade" ∧ p.2 = none ∧ 6 < headers.length then (p.1, headers.get? 6)
    else p)
  synthGo base1 headers [] []

/-- One row of the client table, keyed by the resolved logical fields
(`none` models a NaN cell). -/
structure RowC where
  uf : Option String
  cpf_cnpj : Option String
  cep : Option String
  cidade : Option String
  codigo_cidade : Option String
  razao_nome : Option String
  endereco : Option String
  bairro : Option String
  complemento : Option String
  contato : Option String
  fantasia_apelido : Option String
  tel_principal : Option String
  tel_comercial : Option String
  numero : Option String

/-- The per-run parameters of `processar_clientes` as they stand after the
setup normalization block (clientes.py:298-304). -/
structure CfgC where
  uf_default : String
  cidade_default_norm : String
  ibge_default : String
  cep_default_masked : String
  ddd_default : String
  municipios : List (String × String)

/-- The setup normalization block itself (clientes.py:298-304). -/
def mkCfgClientes (cidade_default uf_default ibge_default cep_default ddd_default : String)
    (municipios : List (String × String)) : CfgC :=
  let cepd0 := only_digits cep_default
  let cepd := if cepd0.data.length < 8 then String.mk (zfill 8 cepd0.data) else cepd0
  let dd0 := only_digits ddd_default
  let dd := if dd0 = "" then "00" else dd0
  { uf_default := String.mk (pyUpperL (pyStripL uf_default.data)),
    cidade_default_norm := normalize_city cidade_default,
    ibge_default := ibge_default,
    cep_default_masked := String.mk (mask_cep_L cepd.data),
    ddd_default := String.mk (dd.data.drop (dd.data.length - 2)),
    municipios := municipios }

/-- `pd.isna(val) or str(val).strip() == ""` — the emptiness test every
branch of the transform loop uses. -/
def cellEmpty (v : Option String) : Bool :=
  match v with
  | none => true
  | some s => (pyStripL s.data).isEmpty

/-- UF defaulting (clientes.py:309-312): written only when empty. -/
def stepUf (cfg : CfgC) (r : RowC) : RowC :=
  if cellEmpty r.uf ∧ cfg.uf_default ≠ "" then { r with uf := some cfg.uf_default } else r

/-- Tax-ID recanonicalization (clientes.py:315-318): always recomputed,
written when it differs from the current value. -/
def stepDoc (r : RowC) : RowC :=
  let cur := r.cpf_cnpj.getD ""
  let nd := smart_cpf_cnpj_mask cur
  if nd ≠ cur then { r with cpf_cnpj := some nd } else r

/-- Postal-code handling (clientes.py:321-325): an empty cell gets the
default; a non-empty cell is re-masked through `_smart_cep_mask`. -/
def stepCep (cfg : CfgC) (r : RowC) : RowC :=
  { r with cep := some (if cellEmpty r.cep then cfg.cep_default_masked
                        else smart_cep_mask (r.cep.getD "") cfg.cep_default_masked) }

/-- City defaulting (clientes.py:328-331): written only when empty. -/
def stepCidade (cfg : CfgC) (r : RowC) : RowC :=
  if cellEmpty r.cidade ∧ cfg.cidade_default_norm ≠ "" then
    { r with cidade := some (pyTitle cfg.cidade_default_norm) }
  else r

/-- City-code resolution (clientes.py:334-342): only when empty; reference
lookup by the (possibly just defaulted) city name, then the default code. -/
def stepCodCid (cfg : CfgC) (r : RowC) : RowC :=
  if cellEmpty r.codigo_cidade then
    let key := normalize_city (r.cidade.getD "")
    let code0 := (List.lookup key cfg.municipios).getD ""
    let code := if code0 = "" ∧ cfg.ibge_default ≠ "" then cfg.ibge_default else code0
    if code ≠ "" then { r with codigo_cidade := some code } else r
  else r

/-- Address-number extraction (clientes.py:345-356): only when the number
cell is empty; on success the number is stored and the address rewritten. -/
def stepNumero (r : RowC) : RowC :=
  if cellEmpty r.numero then
    let ve := r.endereco.getD ""
    let ex := extract_num_from_endereco ve
    if ex ≠ "" then { r with numero := some ex, endereco := some (strip_num_tail ve) }
    else r
  else r

/-- Free-text recanonicalization of one cell (clientes.py:360-364):
non-empty cells are sanitized in place. -/
def sanitizeCellClientes (v : Option String) : Option String :=
  match v with
  | some s => if (pyStripL s.data).isEmpty then v else some (sanitize_text_clientes s)
  | none => none

/-- The text loop over the six free-text fields (clientes.py:360-364). -/
def stepTexts (r : RowC) : RowC :=
  { r with
    razao_nome := sanitizeCellClientes r.razao_nome,
    endereco := sanitizeCellClientes r.endereco,
    bairro := sanitizeCellClientes r.bairro,
    complemento := sanitizeCellClientes r.complemento,
    contato := sanitizeCellClientes r.contato,
    fantasia_apelido := sanitizeCellClientes r.fantasia_apelido }

/-- Phone recanonicalization of one cell (clientes.py:367-371). -/
def phoneCellClientes (ddd : String) (v : Option String) : Option String :=
  match v with
  | some s => if (pyStripL s.data).isEmpty then v else some (smart_phone_mask_c s ddd)
  | none => none

/-- The phone loop over the two phone fields (clientes.py:367-371). -/
def stepPhones (cfg : CfgC) (r : RowC) : RowC :=
  { r with
    tel_principal := phoneCellClientes cfg.ddd_default r.tel_principal,
    tel_comercial := phoneCellClientes cfg.ddd_default r.tel_comercial }

/-- One iteration of the transform loop of `processar_clientes`
(clientes.py:307-371), in source order. -/
def processRowClientes (cfg : CfgC) (r : RowC) : RowC :=
  stepPhones cfg (stepTexts (stepNumero (stepCodCid cfg (stepCidade cfg (stepCep cfg (stepDoc (stepUf cfg r)))))))

/-! ### Helper lemmas -/

theorem filter_all_self (p : Char → Bool) (l : List Char) : (l.filter p).all p = true := by
  rw [List.all_eq_true]
  intro a ha
  exact (List.mem_filter.mp ha).2

theorem onlyDigitsL_all (l : List Char) : (onlyDigitsL l).all isDigitC = true := by
  unfold onlyDigitsL
  exact filter_all_self _ _

theorem zfill_all (n : Nat) (l : List Char) (h : l.all isDigitC = true) :
    (zfill n l).all isDigitC = true := by
  unfold zfill
  rw [List.all_append, h, List.all_replicate]
  split <;> decide

theorem zfill_length (n : Nat) (l : List Char) (h : l.length ≤ n) :
    (zfill n l).length = n := by
  unfold zfill
  rw [List.length_append, List.length_replicate]
  omega

theorem all_of_drop (p : Char → Bool) (l : List Char) (k : Nat) (h : l.all p = true) :
    ((l.drop k).all p) = true := by
  rw [List.all_eq_true] at h ⊢
  intro x hx
  exact h x (List.mem_of_mem_drop hx)

theorem all_of_take (p : Char → Bool) (l : List Char) (k : Nat) (h : l.all p = true) :
    ((l.take k).all p) = true := by
  rw [List.all_eq_true] at h ⊢
  intro x hx
  exact h x (List.mem_of_mem_take hx)

/-! ### C10 — postal-code mask shape -/

/-- Spec-side shape predicate for the claim: exactly five digits, a hyphen,
three digits. -/
def isCepShapeB (s : String) : Bool :=
  s.data.length == 9 && (s.data.take 5).all isDigitC &&
  decide ((s.data.drop 5).take 1 = ['-']) && ((s.data.drop 5).drop 1).all isDigitC

theorem smart_cep_mask_L_as_mask (raw pad : List Char) :
    ∃ d, d.length = 8 ∧ d.all isDigitC = true ∧ smart_cep_mask_L raw pad = mask_cep_L d := by
  simp only [smart_cep_mask_L]
  set d0 := onlyDigitsL raw with hd0
  set dp := onlyDigitsL pad with hdp
  have h0 : d0.all isDigitC = true := onlyDigitsL_all raw
  have hp : dp.all isDigitC = true := onlyDigitsL_all pad
  set d1 := if d0.length = 0 then dp else d0 with hd1
  have h1 : d1.all isDigitC = true := by
    rw [hd1]; split <;> assumption
  by_cases hlt : d1.length < 8
  · refine ⟨zfill 8 d1, zfill_length 8 d1 (by omega), zfill_all 8 d1 h1, ?_⟩
    simp [hlt]
  · by_cases hgt : 8 < d1.length
    · refine ⟨d1.drop (d1.length - 8), ?_, all_of_drop _ _ _ h1, ?_⟩
      · rw [List.length_drop]; omega
      · simp [hlt, hgt]
    · refine ⟨d1, by omega, h1, ?_⟩
      simp [hlt, hgt]

theorem mask_cep_shape (d : List Char) (hlen : d.length = 8) (hall : d.all isDigitC = true) :
    isCepShapeB (String.mk (mask_cep_L d)) = true := by
  unfold isCepShapeB mask_cep_L
  have ht5 : (d.take 5).length = 5 := by rw [List.length_take]; omega
  have hu3 : ((d.drop 5).take 3).length = 3 := by
    rw [List.length_take, List.length_drop]; omega
  have gen_take : ∀ (t r : List Char), t.length = 5 → (t ++ r).take 5 = t := by
    intro t r ht
    rw [← ht]
    exact List.take_left _ _
  have gen_drop : ∀ (t r : List Char), t.length = 5 → (t ++ r).drop 5 = r := by
    intro t r ht
    rw [← ht]
    exact List.drop_left _ _
  have htake := gen_take (d.take 5) ('-' :: (d.drop 5).take 3) ht5
  have hdrop := gen_drop (d.take 5) ('-' :: (d.drop 5).take 3) ht5
  simp only [String.data]
  rw [htake, hdrop]
  simp only [List.length_append, ht5, List.length_cons, hu3]
  have h1 : (d.take 5).all isDigitC = true := all_of_take _ _ _ hall
  have h2 : ((d.drop 5).take 3).all isDigitC = true :=
    all_of_take _ _ _ (all_of_drop _ _ _ hall)
  simp [h1, h2]

/-- C10: for every raw value and every fallback value, `_smart_cep_mask`
returns a string of exactly the shape five digits, hyphen, three digits, and
when neither input contains a digit the result is `"00000-000"`. -/
theorem c10_postal_mask_total_shape (raw fb : String) :
    isCepShapeB (smart_cep_mask raw fb) = true ∧
    (only_digits raw = "" → only_digits fb = "" → smart_cep_mask raw fb = "00000-000") := by
  constructor
  · obtain ⟨d, h8, hall, heq⟩ := smart_cep_mask_L_as_mask raw.data fb.data
    unfold smart_cep_mask
    rw [heq]
    exact mask_cep_shape d h8 hall
  · intro h1 h2
    have e1 : onlyDigitsL raw.data = [] := congrArg String.data h1
    have e2 : onlyDigitsL fb.data = [] := congrArg String.data h2
    show String.mk (smart_cep_mask_L raw.data fb.data) = "00000-000"
    unfold smart_cep_mask_L
    rw [e1, e2]
    rfl

/-- Witness for C10 at a concrete digit-free input pair. -/
theorem c10_witness :
    isCepShapeB (smart_cep_mask "abc" "") = true ∧ smart_cep_mask "abc" "" = "00000-000" :=
  ⟨(c10_postal_mask_total_shape "abc" "").1,
   (c10_postal_mask_total_shape "abc" "").2 rfl rfl⟩

/-! ### C2 — tax-ID classification by digit count -/

/-- Slice `d[a:b]` helper for the spec-side mask templates. -/
def sliceS (d : List Char) (a b : Nat) : List Char := (d.drop a).take (b - a)

/-- Spec-side person-ID mask template `XXX.XXX.XXX-XX` (claim wording). -/
def personGroups (d : List Char) : List Char :=
  sliceS d 0 3 ++ '.' :: (sliceS d 3 6 ++ '.' :: (sliceS d 6 9 ++ '-' :: sliceS d 9 11))

/-- Spec-side organization-ID mask template `XX.XXX.XXX/XXXX-XX`. -/
def orgGroups (d : List Char) : List Char :=
  sliceS d 0 2 ++ '.' :: (sliceS d 2 5 ++ '.' :: (sliceS d 5 8 ++ '/' :: (sliceS d 8 12 ++ '-' :: sliceS d 12 14)))

/-- `maskTaxId` as the claim words it: classify by the digit count of
`extractDigits(raw)`; 11 → person mask, 14 → organization mask, 9-10 →
left-zero-pad to 11 then person mask, 12-13 → left-zero-pad to 14 then
organization mask, anything else → the bare digit string. -/
def maskTaxIdSpec (raw : String) : String :=
  let d := only_digits raw
  let n := d.data.length
  if n = 11 then String.mk (personGroups d.data)
  else if n = 14 then String.mk (orgGroups d.data)
  else if 9 ≤ n ∧ n ≤ 10 then String.mk (personGroups (List.replicate (11 - n) '0' ++ d.data))
  else if 12 ≤ n ∧ n ≤ 13 then String.mk (orgGroups (List.replicate (14 - n) '0' ++ d.data))
  else d

theorem personGroups_eq_mask_cpf (d : List Char) : personGroups d = mask_cpf_L d := by
  simp [personGroups, mask_cpf_L, sliceS]

theorem orgGroups_eq_mask_cnpj (d : List Char) : orgGroups d = mask_cnpj_L d := by
  simp [orgGroups, mask_cnpj_L, sliceS]

/-- C2: `_smart_cpf_cnpj_mask` (identical in clientes.py and
fornecedores.py) agrees with the claim's digit-count classification on every
input string. -/
theorem c2_mask_tax_id_classification (raw : String) :
    smart_cpf_cnpj_mask raw = maskTaxIdSpec raw := by
  unfold smart_cpf_cnpj_mask maskTaxIdSpec smart_cpf_cnpj_mask_L
  simp only [only_digits]
  set d := onlyDigitsL raw.data with hd
  have hz11 : zfill 11 d = List.replicate (11 - d.length) '0' ++ d := rfl
  have hz14 : zfill 14 d = List.replicate (14 - d.length) '0' ++ d := rfl
  split_ifs with h1 h2 h3 h4 h5 h6 h7 h8 h9 <;>
    first
    | rfl
    | omega
    | (exact absurd rfl (by omega))
    | (rw [List.length_eq_zero.mp h1])

/-! ### C6 — round trip of the 11-digit person mask -/

theorem ne_of_digit_nondigit {c x : Char} (h : isDigitC c = true) (hx : isDigitC x = false) :
    c ≠ x := by
  intro heq
  subst heq
  rw [h] at hx
  cases hx

theorem digit_not_space {c : Char} (h : isDigitC c = true) : pyIsSpace c = false := by
  simp only [isDigitC, Bool.and_eq_true, decide_eq_true_eq] at h
  simp only [pyIsSpace]
  simp only [Bool.or_eq_false_iff, Bool.and_eq_false_iff, decide_eq_false_iff_not, beq_eq_false_iff_ne]
  omega

theorem dropWhile_eq_self_of_none (p : Char → Bool) (l : List Char)
    (h : ∀ c ∈ l, p c = false) : l.dropWhile p = l := by
  cases l with
  | nil => rfl
  | cons c t =>
    rw [List.dropWhile_cons]
    simp [h c (List.mem_cons_self c t)]

theorem dropTrailingIf_eq_self_of_none (p : Char → Bool) (l : List Char)
    (h : ∀ c ∈ l, p c = false) : dropTrailingIf p l = l := by
  induction l with
  | nil => rfl
  | cons c t ih =>
    have ht : dropTrailingIf p t = t := ih (fun x hx => h x (List.mem_cons_of_mem c hx))
    unfold dropTrailingIf
    rw [ht]
    cases t with
    | nil => simp [h c (List.mem_cons_self c [])]
    | cons a u => simp

theorem pyStripL_eq_self_of_no_space (l : List Char)
    (h : ∀ c ∈ l, pyIsSpace c = false) : pyStripL l = l := by
  unfold pyStripL
  rw [dropWhile_eq_self_of_none _ _ h, dropTrailingIf_eq_self_of_none _ _ h]

theorem takeWhile_append_all (p : Char → Bool) (l1 l2 : List Char) (h : l1.all p = true) :
    (l1 ++ l2).takeWhile p = l1 ++ l2.takeWhile p := by
  induction l1 with
  | nil => simp
  | cons c t ih =>
    rw [List.all_cons, Bool.and_eq_true] at h
    simp only [List.cons_append, List.takeWhile_cons, h.1, if_true, ih h.2]

theorem dropWhile_append_all (p : Char → Bool) (l1 l2 : List Char) (h : l1.all p = true) :
    (l1 ++ l2).dropWhile p = l2.dropWhile p := by
  induction l1 with
  | nil => simp
  | cons c t ih =>
    rw [List.all_cons, Bool.and_eq_true] at h
    simp only [List.cons_append, List.dropWhile_cons, h.1, if_true, ih h.2]

theorem takeWhile_append_all' (p : Char → Bool) (l1 : List Char) (h : l1.all p = true) :
    ∀ l2, (l1 ++ l2).takeWhile p = l1 ++ l2.takeWhile p :=
  fun l2 => takeWhile_append_all p l1 l2 h

theorem dropWhile_append_all' (p : Char → Bool) (l1 : List Char) (h : l1.all p = true) :
    ∀ l2, (l1 ++ l2).dropWhile p = l2.dropWhile p :=
  fun l2 => dropWhile_append_all p l1 l2 h

theorem takeWhile_eq_self_of_all (p : Char → Bool) (l : List Char) (h : l.all p = true) :
    l.takeWhile p = l := by
  have := takeWhile_append_all p l [] h
  simpa using this

theorem dropWhile_eq_nil_of_all (p : Char → Bool) (l : List Char) (h : l.all p = true) :
    l.dropWhile p = [] := by
  have := dropWhile_append_all p l [] h
  simpa using this

/-- On a non-empty all-digit string of at most 28 digits, `_only_digits`
reduces to `Decimal` leading-zero normalization. -/
theorem onlyDigitsL_of_digits (d : List Char) (hall : d.all isDigitC = true)
    (hne : d ≠ []) (hlen : d.length ≤ 28) : onlyDigitsL d = lstrip0 d := by
  have hmem : ∀ c ∈ d, isDigitC c = true := List.all_eq_true.mp hall
  have hstrip : pyStripL d = d :=
    pyStripL_eq_self_of_no_space d (fun c hc => digit_not_space (hmem c hc))
  have hdot0 : isIntDot0 d = false := by
    unfold isIntDot0
    cases hdec : decide (d.drop (d.length - 2) = ['.', '0']) with
    | true =>
      exfalso
      have heq := of_decide_eq_true hdec
      have hdotmem : '.' ∈ d := by
        apply List.mem_of_mem_drop (n := d.length - 2)
        rw [heq]
        exact List.mem_cons_self _ _
      have := hmem _ hdotmem
      simp [isDigitC] at this
    | false => simp [hdec]
  have hhead : ∀ (x : Char), isDigitC x = false → ¬ d.head? = some x := by
    intro x hx hq
    cases d with
    | nil => simp at hq
    | cons c t =>
      simp only [List.head?_cons, Option.some.injEq] at hq
      exact ne_of_digit_nondigit (hmem c (List.mem_cons_self c t)) hx hq
  have hparse : parseSci d = some (false, d, [], 0) := by
    simp only [parseSci]
    have h1 : ¬ (d.head? = some '+' ∨ d.head? = some '-') := by
      rintro (h | h)
      · exact hhead '+' (by decide) h
      · exact hhead '-' (by decide) h
    have hneg : (decide (d.head? = some '-') : Bool) = false := by
      simp only [decide_eq_false_iff_not]
      intro h
      exact h1 (Or.inr h)
    rw [if_neg h1]
    rw [takeWhile_eq_self_of_all _ _ hall, dropWhile_eq_nil_of_all _ _ hall]
    simp [hne, hneg]
  have hfmt : decimalQuantizeFmt (false, d, [], 0) = some (lstrip0 d) := by
    simp only [decimalQuantizeFmt]
    have hlstrip : (lstrip0 d).length ≤ 28 := by
      simp only [lstrip0]
      split
      · simp
      · calc (d.dropWhile (fun c => c == '0')).length ≤ d.length :=
              (List.dropWhile_sublist _).length_le
          _ ≤ 28 := hlen
    by_cases hz : lstrip0 (d ++ []) = ['0']
    · rw [if_pos hz]
      rw [List.append_nil] at hz
      simp [hz]
    · rw [if_neg hz]
      rw [List.append_nil] at hz ⊢
      have he : (0 - ([] : List Char).length : Int) = 0 := by simp
      rw [if_pos (by simp)]
      rw [if_neg (by simpa using hlstrip)]
      simp
  simp only [onlyDigitsL]
  rw [hstrip, hdot0]
  simp only [Bool.false_eq_true, if_false]
  rw [hparse]
  simp only [hfmt]
  apply List.filter_eq_self.mpr
  intro a ha
  simp only [lstrip0] at ha
  split at ha
  · simp at ha
    simp [ha, isDigitC]
  · exact hmem a ((List.dropWhile_sublist _).subset ha)

/-- Spec-side pattern `\d{3}\.\d{3}\.\d{3}-\d{2}` from the claim. -/
def cpfPatternB (s : String) : Bool :=
  s.data.length == 14 && (s.data.take 3).all isDigitC && decide ((s.data.drop 3).take 1 = ['.']) &&
  ((s.data.drop 4).take 3).all isDigitC && decide ((s.data.drop 7).take 1 = ['.']) &&
  ((s.data.drop 8).take 3).all isDigitC && decide ((s.data.drop 11).take 1 = ['-']) &&
  (s.data.drop 12).all isDigitC

theorem append_take_of_len (t r : List Char) (n : Nat) (h : t.length = n) :
    (t ++ r).take n = t := by
  rw [← h]
  exact List.take_left _ _

theorem append_drop_of_len (t r : List Char) (n : Nat) (h : t.length = n) :
    (t ++ r).drop n = r := by
  rw [← h]
  exact List.drop_left _ _

theorem mask_cpf_roundtrip (d : List Char) (hlen : d.length = 11) (hall : d.all isDigitC = true) :
    onlyDigitsL (mask_cpf_L d) = d ∧ cpfPatternB (String.mk (mask_cpf_L d)) = true := by
  have hmem : ∀ c ∈ d, isDigitC c = true := List.all_eq_true.mp hall
  set t1 := d.take 3 with ht1
  set t2 := (d.drop 3).take 3 with ht2
  set t3 := (d.drop 6).take 3 with ht3
  set t4 := (d.drop 9).take 2 with ht4
  have l1 : t1.length = 3 := by rw [ht1, List.length_take]; omega
  have l2 : t2.length = 3 := by rw [ht2, List.length_take, List.length_drop]; omega
  have l3 : t3.length = 3 := by rw [ht3, List.length_take, List.length_drop]; omega
  have l4 : t4.length = 2 := by rw [ht4, List.length_take, List.length_drop]; omega
  have a1 : t1.all isDigitC = true := all_of_take _ _ _ hall
  have a2 : t2.all isDigitC = true := all_of_take _ _ _ (all_of_drop _ _ _ hall)
  have a3 : t3.all isDigitC = true := all_of_take _ _ _ (all_of_drop _ _ _ hall)
  have a4 : t4.all isDigitC = true := all_of_take _ _ _ (all_of_drop _ _ _ hall)
  have hm : mask_cpf_L d = t1 ++ '.' :: (t2 ++ '.' :: (t3 ++ '-' :: t4)) := rfl
  have hcat : t1 ++ (t2 ++ (t3 ++ t4)) = d := by
    have e4 : t4 = (d.drop 6).drop 3 := by
      have hl9 : (d.drop 9).length ≤ 2 := by rw [List.length_drop]; omega
      rw [List.drop_drop]
      norm_num
      rw [ht4]
      exact List.take_of_length_le hl9
    have e34 : t3 ++ t4 = d.drop 6 := by rw [e4, ht3, List.take_append_drop]
    have e3' : d.drop 6 = (d.drop 3).drop 3 := by rw [List.drop_drop]
    have e234 : t2 ++ (t3 ++ t4) = d.drop 3 := by
      rw [e34, e3', ht2, List.take_append_drop]
    rw [e234, ht1, List.take_append_drop]
  have hdotf : isDigitC '.' = false := rfl
  have hdashf : isDigitC '-' = false := rfl
  obtain ⟨a, b, c, ht1e⟩ := List.length_eq_three.mp l1
  have habc : isDigitC a = true ∧ isDigitC b = true ∧ isDigitC c = true := by
    rw [ht1e] at a1
    simpa using a1
  have hT2ne : t2 ≠ [] := by intro h; rw [h] at l2; simp at l2
  have hT3ne : t3 ≠ [] := by intro h; rw [h] at l3; simp at l3
  -- parseSci fails on the masked string
  have hparse : parseSci (mask_cpf_L d) = none := by
    rw [hm, ht1e]
    simp only [parseSci, List.cons_append, List.nil_append, List.head?_cons]
    have hplus : ¬ ((some a = some '+') ∨ (some a = some '-')) := by
      rintro (h | h) <;> (
        simp only [Option.some.injEq] at h
        exact ne_of_digit_nondigit habc.1 (by decide) h)
    rw [if_neg hplus]
    simp [habc.1, habc.2.1, habc.2.2, hdotf, takeWhile_append_all' _ _ a2,
      dropWhile_append_all' _ _ a2, hT2ne]
  -- no whitespace anywhere in the mask
  have hnospace : ∀ x ∈ mask_cpf_L d, pyIsSpace x = false := by
    intro x hx
    rw [hm] at hx
    simp only [List.mem_append, List.mem_cons] at hx
    rcases hx with h | h | h | h | h | h | h
    · exact digit_not_space (List.all_eq_true.mp a1 x h)
    · subst h; rfl
    · exact digit_not_space (List.all_eq_true.mp a2 x h)
    · subst h; rfl
    · exact digit_not_space (List.all_eq_true.mp a3 x h)
    · subst h; rfl
    · exact digit_not_space (List.all_eq_true.mp a4 x h)
  have hmasklen : (mask_cpf_L d).length = 14 := by
    rw [hm]
    simp [l1, l2, l3, l4]
  -- positional decomposition of the mask
  have hm2 : mask_cpf_L d = (t1 ++ '.' :: (t2 ++ '.' :: (t3 ++ ['-']))) ++ t4 := by
    rw [hm]; simp
  have hp12 : (t1 ++ '.' :: (t2 ++ '.' :: (t3 ++ ['-']))).length = 12 := by
    simp [l1, l2, l3]
  have hdrop12 : (mask_cpf_L d).drop 12 = t4 := by
    rw [hm2]
    exact append_drop_of_len _ _ _ hp12
  have hdot0m : isIntDot0 (mask_cpf_L d) = false := by
    unfold isIntDot0
    cases hdec : decide ((mask_cpf_L d).drop ((mask_cpf_L d).length - 2) = ['.', '0']) with
    | true =>
      exfalso
      have heq := of_decide_eq_true hdec
      rw [hmasklen] at heq
      norm_num at heq
      rw [hdrop12] at heq
      have : '.' ∈ t4 := by rw [heq]; exact List.mem_cons_self _ _
      have := List.all_eq_true.mp a4 _ this
      rw [hdotf] at this
      cases this
    | false => simp [hdec]
  -- extraction of the mask returns d
  have hfilter : onlyDigitsL (mask_cpf_L d) = d := by
    simp only [onlyDigitsL]
    rw [pyStripL_eq_self_of_no_space _ hnospace, hdot0m]
    simp only [Bool.false_eq_true, if_false]
    rw [hparse]
    rw [hm]
    simp only [List.filter_append, List.filter_cons, hdotf, hdashf, Bool.false_eq_true,
      if_false]
    rw [List.filter_eq_self.mpr (List.all_eq_true.mp a1),
        List.filter_eq_self.mpr (List.all_eq_true.mp a2),
        List.filter_eq_self.mpr (List.all_eq_true.mp a3),
        List.filter_eq_self.mpr (List.all_eq_true.mp a4)]
    exact hcat
  refine ⟨hfilter, ?_⟩
  -- the pattern check
  have hd3 : (mask_cpf_L d).drop 3 = '.' :: (t2 ++ '.' :: (t3 ++ '-' :: t4)) := by
    rw [hm]; exact append_drop_of_len _ _ _ l1
  have hd4 : (mask_cpf_L d).drop 4 = t2 ++ '.' :: (t3 ++ '-' :: t4) := by
    have : (4 : Nat) = 3 + 1 := by norm_num
    rw [this, ← List.drop_drop, hd3]
    simp
  have hd7 : (mask_cpf_L d).drop 7 = '.' :: (t3 ++ '-' :: t4) := by
    have : (7 : Nat) = 4 + 3 := by norm_num
    rw [this, ← List.drop_drop, hd4]
    exact append_drop_of_len _ _ _ l2
  have hd8 : (mask_cpf_L d).drop 8 = t3 ++ '-' :: t4 := by
    have : (8 : Nat) = 7 + 1 := by norm_num
    rw [this, ← List.drop_drop, hd7]
    simp
  have hd11 : (mask_cpf_L d).drop 11 = '-' :: t4 := by
    have : (11 : Nat) = 8 + 3 := by norm_num
    rw [this, ← List.drop_drop, hd8]
    exact append_drop_of_len _ _ _ l3
  have htk3 : (mask_cpf_L d).take 3 = t1 := by
    rw [hm]; exact append_take_of_len _ _ _ l1
  unfold cpfPatternB
  simp only [String.data]
  rw [htk3, hd3, hd4, hd7, hd8, hd11, hdrop12, hmasklen]
  rw [append_take_of_len _ _ _ l2, append_take_of_len _ _ _ l3]
  simp [a1, a2, a3, a4]

/-- On an 11-digit string with fewer than three leading zeros,
`_smart_cpf_cnpj_mask` re-pads the `Decimal`-normalized digits back to the
original string and applies the person mask. -/
theorem smart_mask_digits11 (d : List Char) (hlen : d.length = 11)
    (hall : d.all isDigitC = true) (h000 : ¬ d.take 3 = ['0', '0', '0']) :
    smart_cpf_cnpj_mask_L d = mask_cpf_L d := by
  have hne : d ≠ [] := by intro h; rw [h] at hlen; simp at hlen
  have hod : onlyDigitsL d = lstrip0 d := onlyDigitsL_of_digits d hall hne (by omega)
  rcases d with _ | ⟨c0, _ | ⟨c1, _ | ⟨c2, rest⟩⟩⟩
  · simp at hlen
  · simp at hlen
  · simp at hlen
  simp only [smart_cpf_cnpj_mask_L]
  rw [hod]
  by_cases b0 : c0 = '0'
  · subst b0
    by_cases b1 : c1 = '0'
    · subst b1
      by_cases b2 : c2 = '0'
      · subst b2
        exact absurd rfl h000
      · have hls : lstrip0 ('0' :: '0' :: c2 :: rest) = c2 :: rest := by
          simp [lstrip0, List.dropWhile_cons, b2]
        rw [hls]
        have h9 : (c2 :: rest).length = 9 := by
          simp only [List.length_cons] at hlen ⊢
          omega
        rw [h9]
        norm_num
        congr 1
        simp only [zfill, h9]
        rfl
    · have hls : lstrip0 ('0' :: c1 :: c2 :: rest) = c1 :: c2 :: rest := by
        simp [lstrip0, List.dropWhile_cons, b1]
      rw [hls]
      have h10 : (c1 :: c2 :: rest).length = 10 := by
        simp only [List.length_cons] at hlen ⊢
        omega
      rw [h10]
      norm_num
      congr 1
      simp only [zfill, h10]
      rfl
  · have hls : lstrip0 (c0 :: c1 :: c2 :: rest) = c0 :: c1 :: c2 :: rest := by
      simp [lstrip0, List.dropWhile_cons, b0]
    rw [hls, hlen]
    norm_num

/-- C6 counterexample: the all-zero 11-digit string.  `_only_digits` routes
pure digit strings through `Decimal`, which strips leading zeros; the string
collapses to `"0"`, is too short for any mask branch, and the round trip and
the pattern both fail. -/
theorem c6_counterexample :
    ("00000000000" : String).data.length = 11 ∧
    ("00000000000" : String).data.all isDigitC = true ∧
    smart_cpf_cnpj_mask "00000000000" = "0" ∧
    only_digits (smart_cpf_cnpj_mask "00000000000") ≠ "00000000000" ∧
    cpfPatternB (smart_cpf_cnpj_mask "00000000000") = false := by
  decide

/-- C6 amended: for every digit string of length exactly 11 with fewer than
three leading zeros, `extractDigits(maskTaxId(d))` equals `d` and the masked
value matches the pattern \d{3}\.\d{3}\.\d{3}-\d{2}. -/
theorem c6_roundtrip_amended (d : String) (hlen : d.data.length = 11)
    (hall : d.data.all isDigitC = true) (h000 : ¬ d.data.take 3 = ['0', '0', '0']) :
    only_digits (smart_cpf_cnpj_mask d) = d ∧ cpfPatternB (smart_cpf_cnpj_mask d) = true := by
  obtain ⟨l⟩ := d
  have hm := smart_mask_digits11 l hlen hall h000
  have hr := mask_cpf_roundtrip l hlen hall
  constructor
  · show String.mk (onlyDigitsL (smart_cpf_cnpj_mask_L l)) = String.mk l
    rw [hm, hr.1]
  · show cpfPatternB (String.mk (smart_cpf_cnpj_mask_L l)) = true
    rw [hm]
    exact hr.2

/-- Witness for the amended C6 at a concrete 11-digit string. -/
theorem c6_witness :
    only_digits (smart_cpf_cnpj_mask "12345678901") = "12345678901" ∧
    cpfPatternB (smart_cpf_cnpj_mask "12345678901") = true :=
  c6_roundtrip_amended "12345678901" (by decide) (by decide) (by decide)

/-! ### C1 — reference-index code validation -/

theorem muniStep_inv (m : MuniMaps) (row : String × String × String)
    (h1 : ∀ p ∈ m.code_to_name, is7digits p.1 = true)
    (h2 : ∀ p ∈ m.code_to_uf, is7digits p.1 = true)
    (h3 : ∀ p ∈ m.name_to_code, p.1 ≠ "" ∧ is7digits p.2 = true) :
    (∀ p ∈ (muniStep m row).code_to_name, is7digits p.1 = true) ∧
    (∀ p ∈ (muniStep m row).code_to_uf, is7digits p.1 = true) ∧
    (∀ p ∈ (muniStep m row).name_to_code, p.1 ≠ "" ∧ is7digits p.2 = true) := by
  simp only [muniStep]
  split
  · next hguard =>
    split
    · next hufguard =>
      refine ⟨?_, ?_, ?_⟩
      · intro p hp
        rcases List.mem_cons.mp hp with rfl | hp'
        · exact hguard.2
        · exact h1 p hp'
      · intro p hp
        rcases List.mem_cons.mp hp with rfl | hp'
        · exact hguard.2
        · exact h2 p hp'
      · intro p hp
        rcases List.mem_cons.mp hp with rfl | hp'
        · exact ⟨hguard.1, hguard.2⟩
        · exact h3 p hp'
    · refine ⟨?_, h2, ?_⟩
      · intro p hp
        rcases List.mem_cons.mp hp with rfl | hp'
        · exact hguard.2
        · exact h1 p hp'
      · intro p hp
        rcases List.mem_cons.mp hp with rfl | hp'
        · exact ⟨hguard.1, hguard.2⟩
        · exact h3 p hp'
  · exact ⟨h1, h2, h3⟩

theorem foldl_muniStep_inv (rows : List (String × String × String)) :
    ∀ m : MuniMaps,
      (∀ p ∈ m.code_to_name, is7digits p.1 = true) →
      (∀ p ∈ m.code_to_uf, is7digits p.1 = true) →
      (∀ p ∈ m.name_to_code, p.1 ≠ "" ∧ is7digits p.2 = true) →
      (∀ p ∈ (rows.foldl muniStep m).code_to_name, is7digits p.1 = true) ∧
      (∀ p ∈ (rows.foldl muniStep m).code_to_uf, is7digits p.1 = true) ∧
      (∀ p ∈ (rows.foldl muniStep m).name_to_code, p.1 ≠ "" ∧ is7digits p.2 = true) := by
  induction rows with
  | nil => intro m h1 h2 h3; exact ⟨h1, h2, h3⟩
  | cons r t ih =>
    intro m h1 h2 h3
    rw [List.foldl_cons]
    obtain ⟨g1, g2, g3⟩ := muniStep_inv m r h1 h2 h3
    exact ih _ g1 g2 g3

/-- C1 amended: in the supplier auto-detect loader, every code stored in the
four maps (as a key of code→name and code→UF, and as the value of
name→code) matches the fixed 7-digit pattern, and a row is inserted only
with a non-empty normalized name — malformed rows are dropped silently. -/
theorem c1_supplier_code_validation (rows : List (String × String × String)) :
    (∀ p ∈ (buildMuniMaps rows).code_to_name, is7digits p.1 = true) ∧
    (∀ p ∈ (buildMuniMaps rows).code_to_uf, is7digits p.1 = true) ∧
    (∀ p ∈ (buildMuniMaps rows).name_to_code, p.1 ≠ "" ∧ is7digits p.2 = true) :=
  foldl_muniStep_inv rows ⟨[], [], [], []⟩
    (by intro p hp; cases hp) (by intro p hp; cases hp) (by intro p hp; cases hp)

/-- Witness for the amended C1 at a concrete well-formed reference row. -/
theorem c1_witness : ("GOIANIA" : String) ≠ "" ∧ is7digits "5208707" = true :=
  (c1_supplier_code_validation [("Goiania", "5208707", "GO")]).2.2
    ("GOIANIA", "5208707") (by decide)

/-- C1 counterexample: the client fixed-position loader
(`_load_municipios`, clientes.py:160-168) inserts a reference row whose code
is not 7-digit-shaped — it only requires a non-empty normalized name, so
"malformed rows are dropped in both reference-loading variants" is false. -/
theorem c1_counterexample :
    load_municipios_clientes ⟨5, [["a", "ABC", "c", "X", "e"]]⟩ = [("X", "ABC")] ∧
    is7digits "ABC" = false := by
  decide

/-! ### C5 — auto-detect role assignment -/

/-- A 4-column reference table whose column 0 holds place names and whose
column 3 holds 7-digit codes. -/
def c5_table : RefTable :=
  ⟨4, [["ALFA", "", "", "1234567"], ["BETA", "", "", "7654321"]]⟩

/-- The claim's particular 3-column example: codes in column 0, names in
column 2. -/
def c5_table3 : RefTable :=
  ⟨3, [["1234567", "", "ALFA"], ["7654321", "", "BETA"]]⟩

/-- C5 counterexample: on `c5_table` the name role goes to column 3 (the
codes column) although column 0 scores strictly higher on the name pattern,
and the code role stays at column 1 (zero 7-digit hits) although column 3
has strictly more hits — the "highest-scoring column per role" description
is false. -/
theorem c5_counterexample :
    colAlphaMinusDigits c5_table 0 > colAlphaMinusDigits c5_table 3 ∧
    sevenHits c5_table 3 > sevenHits c5_table 1 ∧
    detectRolesAuto c5_table = some (3, 1, some 0) := by
  decide

/-- C5 amended: the name role is purely positional (column 3) whenever the
table has more than 3 columns — content scoring only runs for narrower
tables — and on the claim's particular 3-column example the roles do come
out as code = column 0 and name = column 2. -/
theorem c5_detect_amended :
    (∀ t : RefTable, 3 < t.ncols → nomeIdxAuto t = some 3) ∧
    detectRolesAuto c5_table3 = some (2, 0, some 1) := by
  constructor
  · intro t ht
    simp [nomeIdxAuto, ht]
  · decide

/-- Witness for the amended C5 at a concrete wide table. -/
theorem c5_witness : nomeIdxAuto ⟨4, [["X", "", "", ""]]⟩ = some 3 :=
  c5_detect_amended.1 ⟨4, [["X", "", "", ""]]⟩ (by decide)

/-! ### C8 — address-number extraction and removal -/

/-- A pipeline configuration with blank defaults, for exercising the
address branch. -/
def c8_cfg : CfgC := ⟨"", "", "", "00000-000", "00", []⟩

/-- A row whose address ends in a digit run followed by a period. -/
def c8_row : RowC :=
  ⟨some "A", some "1", some "1", some "A", some "1", some "A", some "RUA X 123.",
   some "A", some "A", some "A", some "A", some "1", some "1", none⟩

/-- A row with the claim's first example address. -/
def c8_row2 : RowC :=
  ⟨some "A", some "1", some "1", some "A", some "1", some "A", some "RUA DAS FLORES 123",
   some "A", some "A", some "A", some "A", some "1", some "1", none⟩

/-- C8 counterexample: on `"RUA X 123."` the extraction succeeds (the
extractor strips trailing punctuation first), but the pipeline's removal
regex `(\d+|S[\/\s]*N)\s*$` does not tolerate the trailing period, so the
digit run is NOT removed from the tail of the address — the row ends up
with numero `"123"` while the address still ends in `123` (the later text
sanitization only drops the period). -/
theorem c8_counterexample :
    extract_num_from_endereco "RUA X 123." = "123" ∧
    strip_num_tail "RUA X 123." = "RUA X 123." ∧
    (processRowClientes c8_cfg c8_row).numero = some "123" ∧
    (processRowClientes c8_cfg c8_row).endereco = some "RUA X 123" := by
  decide

/-- C8 amended: both quoted examples hold, and the removal does strip the
extracted token from the address tail whenever the token sits at the very
end (only whitespace after it); trailing punctuation blocks the removal. -/
theorem c8_extraction_examples :
    extract_num_from_endereco "RUA DAS FLORES 123" = "123" ∧
    strip_num_tail "RUA DAS FLORES 123" = "RUA DAS FLORES" ∧
    extract_num_from_endereco "AV CENTRAL S/N" = "SN" ∧
    strip_num_tail "AV CENTRAL S/N" = "AV CENTRAL" ∧
    (processRowClientes c8_cfg c8_row2).numero = some "123" ∧
    (processRowClientes c8_cfg c8_row2).endereco = some "RUA DAS FLORES" := by
  decide

/-! ### C3 — per-field overwrite policy of the transform loop -/

theorem stepDoc_uf (r : RowC) : (stepDoc r).uf = r.uf := by
  simp only [stepDoc]; split <;> rfl

theorem stepCep_uf (cfg : CfgC) (r : RowC) : (stepCep cfg r).uf = r.uf := rfl

theorem stepCidade_uf (cfg : CfgC) (r : RowC) : (stepCidade cfg r).uf = r.uf := by
  simp only [stepCidade]; split <;> rfl

theorem stepCodCid_uf (cfg : CfgC) (r : RowC) : (stepCodCid cfg r).uf = r.uf := by
  simp only [stepCodCid]
  repeat' split
  all_goals rfl

theorem stepNumero_uf (r : RowC) : (stepNumero r).uf = r.uf := by
  simp only [stepNumero]
  repeat' split
  all_goals rfl

theorem stepTexts_uf (r : RowC) : (stepTexts r).uf = r.uf := rfl

theorem stepPhones_uf (cfg : CfgC) (r : RowC) : (stepPhones cfg r).uf = r.uf := rfl

theorem stepUf_cidade (cfg : CfgC) (r : RowC) : (stepUf cfg r).cidade = r.cidade := by
  simp only [stepUf]; split <;> rfl

theorem stepDoc_cidade (r : RowC) : (stepDoc r).cidade = r.cidade := by
  simp only [stepDoc]; split <;> rfl

theorem stepCep_cidade (cfg : CfgC) (r : RowC) : (stepCep cfg r).cidade = r.cidade := rfl

theorem stepCodCid_cidade (cfg : CfgC) (r : RowC) : (stepCodCid cfg r).cidade = r.cidade := by
  simp only [stepCodCid]
  repeat' split
  all_goals rfl

theorem stepNumero_cidade (r : RowC) : (stepNumero r).cidade = r.cidade := by
  simp only [stepNumero]
  repeat' split
  all_goals rfl

theorem stepTexts_cidade (r : RowC) : (stepTexts r).cidade = r.cidade := rfl

theorem stepPhones_cidade (cfg : CfgC) (r : RowC) : (stepPhones cfg r).cidade = r.cidade := rfl

theorem stepUf_codcid (cfg : CfgC) (r : RowC) : (stepUf cfg r).codigo_cidade = r.codigo_cidade := by
  simp only [stepUf]; split <;> rfl

theorem stepDoc_codcid (r : RowC) : (stepDoc r).codigo_cidade = r.codigo_cidade := by
  simp only [stepDoc]; split <;> rfl

theorem stepCep_codcid (cfg : CfgC) (r : RowC) : (stepCep cfg r).codigo_cidade = r.codigo_cidade := rfl

theorem stepCidade_codcid (cfg : CfgC) (r : RowC) : (stepCidade cfg r).codigo_cidade = r.codigo_cidade := by
  simp only [stepCidade]; split <;> rfl

theorem stepNumero_codcid (r : RowC) : (stepNumero r).codigo_cidade = r.codigo_cidade := by
  simp only [stepNumero]
  repeat' split
  all_goals rfl

theorem stepTexts_codcid (r : RowC) : (stepTexts r).codigo_cidade = r.codigo_cidade := rfl

theorem stepPhones_codcid (cfg : CfgC) (r : RowC) : (stepPhones cfg r).codigo_cidade = r.codigo_cidade := rfl

theorem stepUf_numero (cfg : CfgC) (r : RowC) : (stepUf cfg r).numero = r.numero := by
  simp only [stepUf]; split <;> rfl

theorem stepDoc_numero (r : RowC) : (stepDoc r).numero = r.numero := by
  simp only [stepDoc]; split <;> rfl

theorem stepCep_numero (cfg : CfgC) (r : RowC) : (stepCep cfg r).numero = r.numero := rfl

theorem stepCidade_numero (cfg : CfgC) (r : RowC) : (stepCidade cfg r).numero = r.numero := by
  simp only [stepCidade]; split <;> rfl

theorem stepCodCid_numero (cfg : CfgC) (r : RowC) : (stepCodCid cfg r).numero = r.numero := by
  simp only [stepCodCid]
  repeat' split
  all_goals rfl

theorem stepTexts_numero (r : RowC) : (stepTexts r).numero = r.numero := rfl

theorem stepPhones_numero (cfg : CfgC) (r : RowC) : (stepPhones cfg r).numero = r.numero := rfl

/-- C3 amended: during one transform iteration the UF, city, city-code and
number fields are written only when empty; the tax-ID, postal-code, phone
and free-text fields are recanonicalized even when non-empty (the
counterexample shows the postal code changing). -/
theorem c3_transform_frame (cfg : CfgC) (r : RowC) :
    (cellEmpty r.uf = false → (processRowClientes cfg r).uf = r.uf) ∧
    (cellEmpty r.cidade = false → (processRowClientes cfg r).cidade = r.cidade) ∧
    (cellEmpty r.codigo_cidade = false → (processRowClientes cfg r).codigo_cidade = r.codigo_cidade) ∧
    (cellEmpty r.numero = false → (processRowClientes cfg r).numero = r.numero) := by
  refine ⟨?_, ?_, ?_, ?_⟩ <;> intro h <;> unfold processRowClientes
  · rw [stepPhones_uf, stepTexts_uf, stepNumero_uf, stepCodCid_uf, stepCidade_uf,
      stepCep_uf, stepDoc_uf]
    simp only [stepUf]
    split
    · next hcond => rw [h] at hcond; simp at hcond
    · rfl
  · rw [stepPhones_cidade, stepTexts_cidade, stepNumero_cidade, stepCodCid_cidade]
    have hcid : (stepCep cfg (stepDoc (stepUf cfg r))).cidade = r.cidade := by
      rw [stepCep_cidade, stepDoc_cidade, stepUf_cidade]
    simp only [stepCidade]
    split
    · next hcond => rw [hcid, h] at hcond; simp at hcond
    · exact hcid
  · rw [stepPhones_codcid, stepTexts_codcid, stepNumero_codcid]
    have hcc : (stepCidade cfg (stepCep cfg (stepDoc (stepUf cfg r)))).codigo_cidade = r.codigo_cidade := by
      rw [stepCidade_codcid, stepCep_codcid, stepDoc_codcid, stepUf_codcid]
    simp only [stepCodCid]
    split
    · next hcond => rw [hcc, h] at hcond; simp at hcond
    · exact hcc
  · rw [stepPhones_numero, stepTexts_numero]
    have hnum : (stepCodCid cfg (stepCidade cfg (stepCep cfg (stepDoc (stepUf cfg r))))).numero = r.numero := by
      rw [stepCodCid_numero, stepCidade_numero, stepCep_numero, stepDoc_numero, stepUf_numero]
    simp only [stepNumero]
    split
    · next hcond => rw [hnum, h] at hcond; simp at hcond
    · exact hnum

/-- A fully populated row with a short postal code. -/
def c3_row : RowC :=
  ⟨some "SP", some "12345678901", some "1234", some "TATUI", some "9999999",
   some "ACME", some "RUA A", some "B", some "C", some "D", some "E",
   some "1234567", some "1234567", some "10"⟩

/-- A configuration with realistic defaults. -/
def c3_cfg : CfgC :=
  ⟨"GO", "GOIANIA", "5208707", "74000-000", "62", [("GOIANIA", "5208707")]⟩

/-- C3 counterexample: a non-empty postal-code cell is NOT left unchanged —
the pipeline re-masks it through `_smart_cep_mask` (clientes.py:325,
fornecedores.py:410). -/
theorem c3_counterexample :
    cellEmpty c3_row.cep = false ∧
    (processRowClientes c3_cfg c3_row).cep = some "00001-234" ∧
    (processRowClientes c3_cfg c3_row).cep ≠ c3_row.cep := by
  decide

/-- Witness for the amended C3 on the fully populated row. -/
theorem c3_witness :
    (processRowClientes c3_cfg c3_row).uf = c3_row.uf ∧
    (processRowClientes c3_cfg c3_row).cidade = c3_row.cidade ∧
    (processRowClientes c3_cfg c3_row).codigo_cidade = c3_row.codigo_cidade ∧
    (processRowClientes c3_cfg c3_row).numero = c3_row.numero :=
  ⟨(c3_transform_frame c3_cfg c3_row).1 (by decide),
   (c3_transform_frame c3_cfg c3_row).2.1 (by decide),
   (c3_transform_frame c3_cfg c3_row).2.2.1 (by decide),
   (c3_transform_frame c3_cfg c3_row).2.2.2 (by decide)⟩

/-! ### C4 — mojibake repair -/

theorem filterMap_id_of_some (f : Char → Option Char) (l : List Char)
    (h : ∀ c ∈ l, f c = some c) : l.filterMap f = l := by
  induction l with
  | nil => rfl
  | cons c t ih =>
    rw [List.filterMap_cons, h c (List.mem_cons_self c t),
      ih (fun x hx => h x (List.mem_cons_of_mem _ hx))]

theorem latin1_cp1252_char (c : Char)
    (h : c.toNat < 0x80 ∨ (0xA0 ≤ c.toNat ∧ c.toNat ≤ 0xFF)) :
    (latin1Enc c).bind cp1252Dec = some c := by
  have hle : c.toNat ≤ 0xFF := by omega
  simp only [latin1Enc, if_pos hle, Option.some_bind]
  unfold cp1252Dec
  have hcond : (decide (c.toNat < 0x80) || decide (0xA0 ≤ c.toNat)) = true := by
    simp only [Bool.or_eq_true, decide_eq_true_eq]
    omega
  rw [if_pos hcond, Char.ofNat_toNat]

theorem cp1252_latin1_char (c : Char)
    (h : c.toNat < 0x80 ∨ (0xA0 ≤ c.toNat ∧ c.toNat ≤ 0xFF)) :
    (cp1252Enc c).map Char.ofNat = some c := by
  unfold cp1252Enc
  have hcond : (decide (c.toNat < 0x80) ||
      (decide (0xA0 ≤ c.toNat) && decide (c.toNat ≤ 0xFF))) = true := by
    simp only [Bool.or_eq_true, Bool.and_eq_true, decide_eq_true_eq]
    omega
  rw [if_pos hcond]
  simp [Char.ofNat_toNat]

theorem latin1ThenCp1252_id (l : List Char)
    (h : ∀ c ∈ l, c.toNat < 0x80 ∨ (0xA0 ≤ c.toNat ∧ c.toNat ≤ 0xFF)) :
    latin1ThenCp1252 l = l := by
  unfold latin1ThenCp1252
  rw [List.filterMap_filterMap]
  exact filterMap_id_of_some _ _ (fun c hc => latin1_cp1252_char c (h c hc))

theorem cp1252ThenLatin1_id (l : List Char)
    (h : ∀ c ∈ l, c.toNat < 0x80 ∨ (0xA0 ≤ c.toNat ∧ c.toNat ≤ 0xFF)) :
    cp1252ThenLatin1 l = l := by
  unfold cp1252ThenLatin1
  rw [List.map_filterMap]
  exact filterMap_id_of_some _ _ (fun c hc => cp1252_latin1_char c (h c hc))

theorem pickMax3_self (a : List Char) : pickMax3 a a a = a := by
  simp [pickMax3, tupGtB]

/-- C4 amended: `_fix_mojibake_pt` returns its input unchanged on every
string whose characters lie in ASCII or in the Latin-1 upper range
U+00A0..U+00FF — on that domain both 8-bit round trips are the identity.
(The presence or absence of the six score markers is irrelevant: a
marker-free string with a C1 control character is still rewritten, and a
marker-laden Latin-1 string is left alone.) -/
theorem fixMojibake_id_of_latin1 (s : String)
    (h : ∀ c ∈ s.data, c.toNat < 0x80 ∨ (0xA0 ≤ c.toNat ∧ c.toNat ≤ 0xFF)) :
    fix_mojibake_pt s = s := by
  obtain ⟨l⟩ := s
  show String.mk (pickMax3 l (latin1ThenCp1252 l) (cp1252ThenLatin1 l)) = String.mk l
  rw [latin1ThenCp1252_id l h, cp1252ThenLatin1_id l h, pickMax3_self]

/-- C4 amended claim theorem (wrapper over the helper above). -/
theorem c4_fix_identity_latin1 (s : String)
    (h : ∀ c ∈ s.data, c.toNat < 0x80 ∨ (0xA0 ≤ c.toNat ∧ c.toNat ≤ 0xFF)) :
    fix_mojibake_pt s = s :=
  fixMojibake_id_of_latin1 s h

/-- Witness for the amended C4 on a marker-bearing Latin-1 string. -/
theorem c4_witness : fix_mojibake_pt "AÇÃO" = "AÇÃO" :=
  c4_fix_identity_latin1 "AÇÃO" (by decide)

/-- C4 counterexample: U+008C contains none of the six 8-bit mojibake
marker characters, yet `_fix_mojibake_pt` rewrites it to `Œ` (the
latin1-to-cp1252 reinterpretation gains a letter), so "repairMojibake is a
no-op when the input contains no markers" is false. -/
theorem c4_counterexample :
    (String.mk [Char.ofNat 0x8C]).data.all (fun c => !(isMojibakeMarker c)) = true ∧
    fix_mojibake_pt (String.mk [Char.ofNat 0x8C]) = String.mk [Char.ofNat 0x152] ∧
    fix_mojibake_pt (String.mk [Char.ofNat 0x8C]) ≠ String.mk [Char.ofNat 0x8C] := by
  decide

/-! ### C7 — idempotence of sanitizeText -/

/-- No two adjacent whitespace characters. -/
def noTwoSpB : List Char → Bool
  | [] => true
  | [_] => true
  | a :: b :: t => !(pyIsSpace a && pyIsSpace b) && noTwoSpB (b :: t)

theorem noTwoSpB_tail {a : Char} {t : List Char} (h : noTwoSpB (a :: t) = true) :
    noTwoSpB t = true := by
  cases t with
  | nil => rfl
  | cons b u =>
    simp only [noTwoSpB, Bool.and_eq_true] at h
    exact h.2

theorem noTwoSpB_cons_of_not_space {a : Char} {t : List Char} (ha : pyIsSpace a = false)
    (ht : noTwoSpB t = true) : noTwoSpB (a :: t) = true := by
  cases t with
  | nil => rfl
  | cons b u =>
    unfold noTwoSpB
    rw [ha, ht]
    rfl

theorem noTwoSpB_cons_sp {t : List Char} (ht : noTwoSpB t = true)
    (hh : ∀ c, t.head? = some c → pyIsSpace c = false) : noTwoSpB (' ' :: t) = true := by
  cases t with
  | nil => rfl
  | cons b u =>
    unfold noTwoSpB
    rw [hh b rfl, ht]
    rfl

theorem noTwoSpB_sp_head {a : Char} {t : List Char} (ha : pyIsSpace a = true)
    (h : noTwoSpB (a :: t) = true) : ∀ c, t.head? = some c → pyIsSpace c = false := by
  intro c hc
  cases t with
  | nil => cases hc
  | cons b u =>
    simp only [List.head?_cons, Option.some.injEq] at hc
    subst hc
    simp only [noTwoSpB, Bool.and_eq_true] at h
    obtain ⟨h1, _⟩ := h
    rw [Bool.not_eq_true', Bool.and_eq_false_iff] at h1
    rcases h1 with h1 | h1
    · rw [ha] at h1; cases h1
    · exact h1

theorem sub1Go_all_keep (flag : Bool) (l : List Char) : (sub1Go flag l).all keepB = true := by
  induction l generalizing flag with
  | nil => rfl
  | cons c t ih =>
    unfold sub1Go
    by_cases hk : keepB c = true
    · simp only [hk, if_true, List.all_cons]
      rw [ih false]
      simp [hk]
    · rw [Bool.not_eq_true] at hk
      simp only [hk, Bool.false_eq_true, if_false]
      cases flag
      · simp only [Bool.false_eq_true, if_false, List.all_cons]
        rw [ih true]
        simp [keepB]
      · simp only [if_true]
        exact ih true

theorem collapseWsGo_all_keep (flag : Bool) (l : List Char) (h : l.all keepB = true) :
    (collapseWsGo flag l).all keepB = true := by
  induction l generalizing flag with
  | nil => rfl
  | cons c t ih =>
    simp only [List.all_cons, Bool.and_eq_true] at h
    unfold collapseWsGo
    by_cases hs : pyIsSpace c = true
    · simp only [hs, if_true]
      cases flag
      · simp only [Bool.false_eq_true, if_false, List.all_cons]
        rw [ih true h.2]
        simp [keepB]
      · simp only [if_true]
        exact ih true h.2
    · rw [Bool.not_eq_true] at hs
      simp only [hs, Bool.false_eq_true, if_false, List.all_cons]
      rw [ih false h.2]
      simp [h.1]

theorem collapseWsGo_head_no_space (l : List Char) :
    ∀ c, (collapseWsGo true l).head? = some c → pyIsSpace c = false := by
  induction l with
  | nil => intro c hc; cases hc
  | cons a t ih =>
    intro c hc
    unfold collapseWsGo at hc
    by_cases hs : pyIsSpace a = true
    · simp only [hs, if_true] at hc
      exact ih c hc
    · rw [Bool.not_eq_true] at hs
      simp only [hs, Bool.false_eq_true, if_false, List.head?_cons, Option.some.injEq] at hc
      subst hc
      exact hs

theorem collapseWsGo_noTwoSp (l : List Char) :
    noTwoSpB (collapseWsGo false l) = true ∧ noTwoSpB (collapseWsGo true l) = true := by
  induction l with
  | nil => exact ⟨rfl, rfl⟩
  | cons a t ih =>
    unfold collapseWsGo
    by_cases hs : pyIsSpace a = true
    · simp only [hs, if_true]
      refine ⟨?_, ih.2⟩
      exact noTwoSpB_cons_sp ih.2 (collapseWsGo_head_no_space t)
    · rw [Bool.not_eq_true] at hs
      simp only [hs, Bool.false_eq_true, if_false]
      exact ⟨noTwoSpB_cons_of_not_space hs ih.1, noTwoSpB_cons_of_not_space hs ih.1⟩


theorem mem_dropTrailingIf {p : Char → Bool} {x : Char} {l : List Char}
    (h : x ∈ dropTrailingIf p l) : x ∈ l := by
  induction l with
  | nil => cases h
  | cons c t ih =>
    simp only [dropTrailingIf] at h
    by_cases hr : (dropTrailingIf p t).isEmpty = true
    · rw [if_pos hr] at h
      by_cases hp : p c = true
      · rw [if_pos hp] at h
        cases h
      · rw [if_neg hp] at h
        rw [List.mem_singleton.mp h]
        exact List.mem_cons_self _ _
    · rw [if_neg hr] at h
      rcases List.mem_cons.mp h with rfl | h'
      · exact List.mem_cons_self _ _
      · exact List.mem_cons_of_mem _ (ih h')

theorem dropTrailingIf_head {p : Char → Bool} {l : List Char}
    (h : dropTrailingIf p l ≠ []) : (dropTrailingIf p l).head? = l.head? := by
  cases l with
  | nil => rfl
  | cons c t =>
    simp only [dropTrailingIf] at h ⊢
    by_cases hr : (dropTrailingIf p t).isEmpty = true
    · rw [if_pos hr] at h ⊢
      by_cases hp : p c = true
      · rw [if_pos hp] at h
        exact absurd rfl h
      · rw [if_neg hp]
        rfl
    · rw [if_neg hr]
      rfl

theorem noTwoSpB_dropWhile (p : Char → Bool) (l : List Char) (h : noTwoSpB l = true) :
    noTwoSpB (l.dropWhile p) = true := by
  induction l with
  | nil => exact h
  | cons c t ih =>
    rw [List.dropWhile_cons]
    split
    · exact ih (noTwoSpB_tail h)
    · exact h

theorem noTwoSpB_dropTrailingIf (p : Char → Bool) (l : List Char) (h : noTwoSpB l = true) :
    noTwoSpB (dropTrailingIf p l) = true := by
  induction l with
  | nil => exact h
  | cons c t ih =>
    simp only [dropTrailingIf]
    by_cases hr : (dropTrailingIf p t).isEmpty = true
    · rw [if_pos hr]
      by_cases hp : p c = true
      · rw [if_pos hp]
        rfl
      · rw [if_neg hp]
        rfl
    · rw [if_neg hr]
      have hrne : dropTrailingIf p t ≠ [] := by
        rw [← List.isEmpty_eq_false]
        rw [Bool.not_eq_true] at hr
        exact hr
      have ht := ih (noTwoSpB_tail h)
      by_cases hc : pyIsSpace c = true
      · obtain ⟨b, u, hbu⟩ : ∃ b u, dropTrailingIf p t = b :: u := by
          cases hne : dropTrailingIf p t with
          | nil => exact absurd hne hrne
          | cons b u => exact ⟨b, u, rfl⟩
        have hb : t.head? = some b := by
          rw [← dropTrailingIf_head hrne, hbu]
          rfl
        have hbn : pyIsSpace b = false := noTwoSpB_sp_head hc h b hb
        rw [hbu]
        rw [hbu] at ht
        unfold noTwoSpB
        rw [hbn, ht]
        simp
      · rw [Bool.not_eq_true] at hc
        exact noTwoSpB_cons_of_not_space hc ht

theorem dropWhile_head_no (p : Char → Bool) (l : List Char) :
    ∀ c, (l.dropWhile p).head? = some c → p c = false := by
  induction l with
  | nil => intro c hc; cases hc
  | cons a t ih =>
    intro c hc
    rw [List.dropWhile_cons] at hc
    split at hc
    · exact ih c hc
    · next ha =>
      simp only [List.head?_cons, Option.some.injEq] at hc
      subst hc
      rw [Bool.not_eq_true] at ha
      exact ha

theorem dropTrailingIf_last_no (p : Char → Bool) (l : List Char) :
    ∀ c, (dropTrailingIf p l).getLast? = some c → p c = false := by
  induction l with
  | nil => intro c hc; cases hc
  | cons a t ih =>
    intro c hc
    simp only [dropTrailingIf] at hc
    by_cases hr : (dropTrailingIf p t).isEmpty = true
    · rw [if_pos hr] at hc
      by_cases hp : p a = true
      · rw [if_pos hp] at hc
        cases hc
      · rw [if_neg hp] at hc
        simp only [List.getLast?_singleton, Option.some.injEq] at hc
        subst hc
        rw [Bool.not_eq_true] at hp
        exact hp
    · rw [if_neg hr] at hc
      cases hne : dropTrailingIf p t with
      | nil =>
        rw [Bool.not_eq_true, List.isEmpty_eq_false] at hr
        exact absurd hne hr
      | cons b u =>
        rw [hne] at hc
        rw [List.getLast?_cons_cons] at hc
        apply ih
        rw [hne]
        exact hc

theorem keepB_toNat {c : Char} (h : keepB c = true) : c.toNat < 128 := by
  simp only [keepB, alnumB, Bool.or_eq_true, Bool.and_eq_true, decide_eq_true_eq,
    beq_iff_eq] at h
  rcases h with ((h | h) | h) | h
  · omega
  · omega
  · omega
  · subst h; decide

theorem keepB_space_eq {c : Char} (h : keepB c = true) (hs : pyIsSpace c = true) : c = ' ' := by
  simp only [keepB, Bool.or_eq_true, beq_iff_eq] at h
  rcases h with h | h
  · exfalso
    simp only [alnumB, Bool.or_eq_true, Bool.and_eq_true, decide_eq_true_eq] at h
    simp only [pyIsSpace, Bool.or_eq_true, Bool.and_eq_true, decide_eq_true_eq,
      beq_iff_eq] at hs
    omega
  · exact h

theorem nfdChar_keep {c : Char} (h : keepB c = true) : nfdChar c = [c] := by
  have := keepB_toNat h
  simp only [nfdChar]
  rw [if_pos (by omega)]

theorem isMnB_keep {c : Char} (h : keepB c = true) : isMnB c = false := by
  have := keepB_toNat h
  simp only [isMnB, Bool.and_eq_false_iff, decide_eq_false_iff_not]
  left
  omega

theorem stripAccentsL_id (l : List Char) (h : l.all keepB = true) : stripAccentsL l = l := by
  induction l with
  | nil => rfl
  | cons c t ih =>
    simp only [List.all_cons, Bool.and_eq_true] at h
    show List.filter _ (List.join (List.map nfdChar (c :: t))) = c :: t
    rw [List.map_cons]
    rw [show List.join (nfdChar c :: List.map nfdChar t) =
        nfdChar c ++ List.join (List.map nfdChar t) from rfl]
    rw [List.filter_append, nfdChar_keep h.1]
    have h1 : List.filter (fun x => !(isMnB x)) [c] = [c] := by
      simp [List.filter_cons, isMnB_keep h.1]
    rw [h1]
    have h2 := ih h.2
    show c :: List.filter (fun x => !(isMnB x)) (List.join (List.map nfdChar t)) = c :: t
    rw [show List.filter (fun x => !(isMnB x)) (List.join (List.map nfdChar t)) =
        stripAccentsL t from rfl, h2]

theorem sub1Go_id (l : List Char) (h : l.all keepB = true) : sub1Go false l = l := by
  induction l with
  | nil => rfl
  | cons c t ih =>
    simp only [List.all_cons, Bool.and_eq_true] at h
    unfold sub1Go
    simp only [h.1, if_true]
    rw [ih h.2]

theorem collapseWsGo_id (l : List Char) (hk : l.all keepB = true) (hn : noTwoSpB l = true) :
    collapseWsGo false l = l ∧
    ((∀ c, l.head? = some c → pyIsSpace c = false) → collapseWsGo true l = l) := by
  induction l with
  | nil => exact ⟨rfl, fun _ => rfl⟩
  | cons a t ih =>
    simp only [List.all_cons, Bool.and_eq_true] at hk
    obtain ⟨iht1, iht2⟩ := ih hk.2 (noTwoSpB_tail hn)
    by_cases hs : pyIsSpace a = true
    · have ha : a = ' ' := keepB_space_eq hk.1 hs
      constructor
      · unfold collapseWsGo
        simp only [hs, if_true, Bool.false_eq_true, if_false]
        rw [iht2 (noTwoSpB_sp_head hs hn), ha]
      · intro hh
        have := hh a rfl
        rw [hs] at this
        cases this
    · rw [Bool.not_eq_true] at hs
      refine ⟨?_, fun _ => ?_⟩ <;> (
        unfold collapseWsGo
        simp only [hs, Bool.false_eq_true, if_false]
        rw [iht1])

theorem dropTrailingIf_id (p : Char → Bool) (l : List Char)
    (hl : ∀ c, l.getLast? = some c → p c = false) : dropTrailingIf p l = l := by
  induction l with
  | nil => rfl
  | cons a t ih =>
    simp only [dropTrailingIf]
    cases t with
    | nil =>
      have ha := hl a rfl
      simp [dropTrailingIf, ha]
    | cons b u =>
      have ht : dropTrailingIf p (b :: u) = b :: u :=
        ih (fun c hc => hl c (by rw [List.getLast?_cons_cons]; exact hc))
      rw [ht]
      simp

theorem pyStripL_id (l : List Char)
    (hh : ∀ c, l.head? = some c → pyIsSpace c = false)
    (hl : ∀ c, l.getLast? = some c → pyIsSpace c = false) : pyStripL l = l := by
  unfold pyStripL
  have h1 : l.dropWhile pyIsSpace = l := by
    cases l with
    | nil => rfl
    | cons a t =>
      rw [List.dropWhile_cons, if_neg]
      rw [hh a rfl]
      simp
  rw [h1]
  exact dropTrailingIf_id _ _ hl

theorem sanitize_out_keep (x : List Char) :
    (pyStripL (collapseWsGo false (sub1Go false x))).all keepB = true := by
  have h1 := collapseWsGo_all_keep false (sub1Go false x) (sub1Go_all_keep false x)
  rw [List.all_eq_true] at h1 ⊢
  intro c hc
  unfold pyStripL at hc
  exact h1 c ((List.dropWhile_sublist _).subset (mem_dropTrailingIf hc))

theorem sanitize_pass_id (l : List Char) (hk : l.all keepB = true) (hn : noTwoSpB l = true)
    (hh : ∀ c, l.head? = some c → pyIsSpace c = false)
    (hl : ∀ c, l.getLast? = some c → pyIsSpace c = false) :
    pyStripL (collapseWsGo false (sub1Go false (stripAccentsL l))) = l := by
  rw [stripAccentsL_id l hk, sub1Go_id l hk, (collapseWsGo_id l hk hn).1, pyStripL_id l hh hl]

theorem sanitize_core_idem (x : List Char) :
    pyStripL (collapseWsGo false (sub1Go false (stripAccentsL
      (pyStripL (collapseWsGo false (sub1Go false x)))))) =
    pyStripL (collapseWsGo false (sub1Go false x)) := by
  set out := pyStripL (collapseWsGo false (sub1Go false x)) with hout
  have hk : out.all keepB = true := sanitize_out_keep x
  have hn : noTwoSpB out = true := by
    rw [hout]
    unfold pyStripL
    exact noTwoSpB_dropTrailingIf _ _
      (noTwoSpB_dropWhile _ _ (collapseWsGo_noTwoSp (sub1Go false x)).1)
  have hh : ∀ c, out.head? = some c → pyIsSpace c = false := by
    intro c hc
    rw [hout] at hc
    unfold pyStripL at hc
    by_cases hr : dropTrailingIf pyIsSpace ((collapseWsGo false (sub1Go false x)).dropWhile pyIsSpace) = []
    · rw [hr] at hc
      cases hc
    · rw [dropTrailingIf_head hr] at hc
      exact dropWhile_head_no _ _ c hc
  have hl : ∀ c, out.getLast? = some c → pyIsSpace c = false := by
    intro c hc
    rw [hout] at hc
    unfold pyStripL at hc
    exact dropTrailingIf_last_no _ _ c hc
  exact sanitize_pass_id out hk hn hh hl

/-- C7: `sanitizeText` is idempotent on every input, in both the client
variant (accent stripping only) and the supplier variant (mojibake repair
then accent stripping). -/
theorem c7_sanitize_idempotent (s : String) :
    sanitize_text_clientes (sanitize_text_clientes s) = sanitize_text_clientes s ∧
    sanitize_text_fornecedores (sanitize_text_fornecedores s) = sanitize_text_fornecedores s := by
  constructor
  · exact congrArg String.mk (sanitize_core_idem (stripAccentsL s.data))
  · show String.mk (pyStripL (collapseWsGo false (sub1Go false (stripAccentsL
      (fix_mojibake_pt (sanitize_text_fornecedores s)).data)))) = sanitize_text_fornecedores s
    have hfix : fix_mojibake_pt (sanitize_text_fornecedores s) = sanitize_text_fornecedores s := by
      apply fixMojibake_id_of_latin1
      intro c hc
      exact Or.inl (keepB_toNat (List.all_eq_true.mp
        (sanitize_out_keep (stripAccentsL (fix_mojibake_pt s).data)) c hc))
    rw [hfix]
    exact congrArg String.mk (sanitize_core_idem (stripAccentsL (fix_mojibake_pt s).data))

/-! ### C9 — column-resolution aliasing -/

theorem natFromDigits_concat (l : List Char) (c : Char) :
    natFromDigits (l ++ [c]) = 10 * natFromDigits l + charVal c := by
  unfold natFromDigits
  rw [List.foldl_append]
  rfl

theorem charVal_digitChar10 (d : Nat) (h : d < 10) : charVal (digitChar10 d) = d := by
  interval_cases d <;> rfl

theorem natFromDigits_natReprGo (f : Nat) :
    ∀ n, n < 10 ^ f → natFromDigits (natReprGo f n) = n := by
  induction f with
  | zero =>
    intro n h
    simp only [pow_zero, Nat.lt_one_iff] at h
    subst h
    rfl
  | succ f ih =>
    intro n h
    unfold natReprGo
    by_cases h10 : n < 10
    · rw [if_pos h10]
      show 10 * 0 + charVal (digitChar10 n) = n
      rw [charVal_digitChar10 n h10]
      omega
    · rw [if_neg h10]
      rw [natFromDigits_concat]
      have hdiv : n / 10 < 10 ^ f := by
        apply Nat.div_lt_of_lt_mul
        rw [pow_succ, mul_comm] at h
        exact h
      rw [ih _ hdiv, charVal_digitChar10 _ (Nat.mod_lt _ (by norm_num))]
      omega

theorem self_lt_pow (n : Nat) : n < 10 ^ (n + 1) := by
  induction n with
  | zero => norm_num
  | succ n ih =>
    have h1 : 0 < 10 ^ (n + 1) := Nat.pos_pow_of_pos _ (by norm_num)
    have h2 : 10 ^ (n + 2) = 10 ^ (n + 1) * 10 := pow_succ 10 (n + 1)
    omega

theorem natFromDigits_natReprL (n : Nat) : natFromDigits (natReprL n) = n :=
  natFromDigits_natReprGo (n + 1) n (self_lt_pow n)

theorem natReprL_injective : Function.Injective natReprL := by
  intro m n h
  rw [← natFromDigits_natReprL m, ← natFromDigits_natReprL n, h]

theorem natReprL_ne_nil (n : Nat) : natReprL n ≠ [] := by
  unfold natReprL natReprGo
  by_cases h10 : n < 10
  · rw [if_pos h10]
    simp
  · rw [if_neg h10]
    simp

theorem freshCandidates_nodup (base : String) (cols : List String) :
    (freshCandidates base cols).Nodup := by
  unfold freshCandidates
  apply List.Nodup.cons
  · intro hmem
    simp only [List.mem_map] at hmem
    obtain ⟨j, _, hj⟩ := hmem
    have hd := congrArg String.data hj
    rw [String.data_append, String.data_append] at hd
    have hlen := congrArg List.length hd
    simp only [List.length_append] at hlen
    have := natReprL_ne_nil (j + 2)
    have hpos : 0 < (String.mk (natReprL (j + 2))).data.length := by
      cases hrep : natReprL (j + 2) with
      | nil => exact absurd hrep this
      | cons a t => simp [hrep]
    simp only [String.data] at hpos hlen
    omega
  · apply List.Nodup.map ?_ (List.nodup_range _)
    intro j k hjk
    have hd := congrArg String.data hjk
    rw [String.data_append, String.data_append, String.data_append, String.data_append] at hd
    have h1 := List.append_cancel_left hd
    have h3 : natReprL (j + 2) = natReprL (k + 2) := h1
    have := natReprL_injective h3
    omega

theorem exists_fresh (base : String) (cols : List String) :
    ∃ c ∈ freshCandidates base cols, c ∉ cols := by
  by_contra hcon
  push_neg at hcon
  have hnd := freshCandidates_nodup base cols
  have hsub : (freshCandidates base cols).toFinset ⊆ cols.toFinset := by
    intro x hx
    rw [List.mem_toFinset] at hx ⊢
    exact hcon x hx
  have hlen : (freshCandidates base cols).length ≤ cols.length :=
    calc (freshCandidates base cols).length
        = (freshCandidates base cols).toFinset.card := (List.toFinset_card_of_nodup hnd).symm
      _ ≤ cols.toFinset.card := Finset.card_le_card hsub
      _ ≤ cols.length := List.toFinset_card_le _
  have hfc : (freshCandidates base cols).length = cols.length + 2 := by
    unfold freshCandidates
    simp
  omega

theorem freshName_not_mem (base : String) (cols : List String) : freshName base cols ∉ cols := by
  unfold freshName
  obtain ⟨c, hc, hcn⟩ := exists_fresh base cols
  have hsome : ((freshCandidates base cols).find? (fun c => !(cols.contains c))).isSome := by
    rw [List.find?_isSome]
    exact ⟨c, hc, by simp [hcn]⟩
  obtain ⟨d, hd⟩ := Option.isSome_iff_exists.mp hsome
  rw [hd, Option.getD_some]
  have hp := List.find?_some hd
  simpa using hp

theorem synthGo_alias_inv (orig : List String) :
    ∀ (pending : List (String × Option String)) (cols : List String)
      (acc : List (String × String)) (created : List String),
      (∀ k v, (k, some v) ∈ pending → v ∈ orig) →
      (∀ p ∈ acc, p.2 ∈ cols) →
      orig ⊆ cols →
      (∀ p q, p ∈ acc → q ∈ acc → p.1 ≠ q.1 → p.2 = q.2 → p.2 ∈ orig) →
      ∀ p q, p ∈ (synthGo pending cols acc created).1 →
        q ∈ (synthGo pending cols acc created).1 → p.1 ≠ q.1 → p.2 = q.2 → p.2 ∈ orig := by
  intro pending
  induction pending with
  | nil =>
    intro cols acc created _ _ _ h4
    exact h4
  | cons kv rest ih =>
    intro cols acc created h1 h2 h3 h4
    obtain ⟨k, ov⟩ := kv
    cases ov with
    | some v =>
      have hv : v ∈ orig := h1 k v (List.mem_cons_self _ _)
      show ∀ p q, p ∈ (synthGo rest cols (acc ++ [(k, v)]) created).1 → _
      apply ih cols (acc ++ [(k, v)]) created
      · intro k' v' hm
        exact h1 k' v' (List.mem_cons_of_mem _ hm)
      · intro p hp
        rcases List.mem_append.mp hp with hp | hp
        · exact h2 p hp
        · rw [List.mem_singleton.mp hp]
          exact h3 hv
      · exact h3
      · intro p q hp hq hne heq
        rcases List.mem_append.mp hp with hp | hp <;>
          rcases List.mem_append.mp hq with hq | hq
        · exact h4 p q hp hq hne heq
        · rw [List.mem_singleton.mp hq] at heq
          rw [heq]
          exact hv
        · rw [List.mem_singleton.mp hp]
          exact hv
        · rw [List.mem_singleton.mp hp, List.mem_singleton.mp hq] at hne
          exact absurd rfl hne
    | none =>
      have hfresh := freshName_not_mem k cols
      show ∀ p q, p ∈ (synthGo rest (cols ++ [freshName k cols]) (acc ++ [(k, freshName k cols)]) (created ++ [freshName k cols])).1 → _
      apply ih
      · intro k' v' hm
        exact h1 k' v' (List.mem_cons_of_mem _ hm)
      · intro p hp
        rcases List.mem_append.mp hp with hp | hp
        · exact List.mem_append.mpr (Or.inl (h2 p hp))
        · rw [List.mem_singleton.mp hp]
          exact List.mem_append.mpr (Or.inr (List.mem_singleton.mpr rfl))
      · intro x hx
        exact List.mem_append.mpr (Or.inl (h3 hx))
      · intro p q hp hq hne heq
        rcases List.mem_append.mp hp with hp | hp <;>
          rcases List.mem_append.mp hq with hq | hq
        · exact h4 p q hp hq hne heq
        · exfalso
          have hq' := List.mem_singleton.mp hq
          have hc := h2 p hp
          rw [heq, hq'] at hc
          exact hfresh hc
        · exfalso
          have hp' := List.mem_singleton.mp hp
          have hc := h2 q hq
          rw [← heq, hp'] at hc
          exact hfresh hc
        · rw [List.mem_singleton.mp hp, List.mem_singleton.mp hq] at hne
          exact absurd rfl hne

theorem lastHeaderWithLower_aux (key : String) (h : String) :
    ∀ (l : List String) (acc : Option String),
      l.foldl (fun acc x => if pyLower x = key then some x else acc) acc = some h →
      h ∈ l ∨ acc = some h := by
  intro l
  induction l with
  | nil =>
    intro acc hacc
    exact Or.inr hacc
  | cons c t ih =>
    intro acc hacc
    rw [List.foldl_cons] at hacc
    rcases ih _ hacc with hm | hm
    · exact Or.inl (List.mem_cons_of_mem _ hm)
    · split at hm
      · rw [Option.some.injEq] at hm
        exact Or.inl (hm ▸ List.mem_cons_self _ _)
      · exact Or.inr hm

theorem lastHeaderWithLower_mem (headers : List String) (key h : String)
    (hh : lastHeaderWithLower headers key = some h) : h ∈ headers := by
  unfold lastHeaderWithLower at hh
  rcases lastHeaderWithLower_aux key h headers none hh with hm | hm
  · exact hm
  · cases hm

theorem find_any_mem (headers cands : List String) (h : String)
    (hf : find_any headers cands = some h) : h ∈ headers := by
  unfold find_any at hf
  cases hcase : cands.findSome? (fun c => lastHeaderWithLower headers (pyLower c)) with
  | some h' =>
    rw [hcase, Option.some.injEq] at hf
    obtain ⟨c, _, hc⟩ := List.exists_of_findSome?_eq_some hcase
    exact hf ▸ lastHeaderWithLower_mem headers (pyLower c) h' hc
  | none =>
    rw [hcase] at hf
    exact List.mem_of_find?_eq_some hf

/-- C9 amended: two distinct logical fields can only alias a physical
column that comes from the header row itself (via candidate matching or a
positional fallback) — synthesized columns are always fresh and never
collide with anything. -/
theorem c9_resolver_alias (headers : List String) (k1 k2 v : String) (hne : k1 ≠ k2)
    (h1 : (k1, v) ∈ (best_guess_columns_clientes headers).1)
    (h2 : (k2, v) ∈ (best_guess_columns_clientes headers).1) :
    v ∈ headers := by
  unfold best_guess_columns_clientes at h1 h2
  have hbase : ∀ k w,
      (k, some w) ∈ (clientes_keys.map (fun k => (k, find_any headers (clientes_cands k)))).map
        (fun p =>
          if p.1 = "cidade" ∧ p.2 = none ∧ 5 < headers.length then (p.1, headers.get? 5)
          else if p.1 = "codigo_cidade" ∧ p.2 = none ∧ 6 < headers.length then (p.1, headers.get? 6)
          else p) →
      w ∈ headers := by
    intro k w hm
    rw [List.mem_map] at hm
    obtain ⟨p, hp, hpe⟩ := hm
    rw [List.mem_map] at hp
    obtain ⟨k', _, hk'⟩ := hp
    split at hpe
    · rw [Prod.mk.injEq] at hpe
      exact List.get?_mem hpe.2
    · split at hpe
      · rw [Prod.mk.injEq] at hpe
        exact List.get?_mem hpe.2
      · rw [hpe] at hk'
        rw [Prod.mk.injEq] at hk'
        exact find_any_mem headers (clientes_cands k') w hk'.2
  exact synthGo_alias_inv headers _ headers [] [] hbase
    (by intro p hp; cases hp) (fun x hx => hx)
    (by intro p q hp; cases hp) (k1, v) (k2, v) h1 h2 hne rfl

/-- Witness for the amended C9: the aliased column of the counterexample
header row is indeed one of the headers. -/
theorem c9_witness : ("numero_endereco" : String) ∈ ["numero_endereco"] :=
  c9_resolver_alias ["numero_endereco"] "endereco" "numero" "numero_endereco"
    (by decide) (by decide) (by decide)

/-- C9 counterexample: with the single header `numero_endereco` the
substring pass assigns BOTH the address field (`endereco` ⊆ header) and the
number field (`num` ⊆ header) to the same physical column, an aliasing not
produced by any positional fallback (those touch only the city and
city-code fields on tables with more than 5 columns). -/
theorem c9_counterexample :
    ("endereco", "numero_endereco") ∈ (best_guess_columns_clientes ["numero_endereco"]).1 ∧
    ("numero", "numero_endereco") ∈ (best_guess_columns_clientes ["numero_endereco"]).1 ∧
    ("endereco" : String) ≠ "cidade" ∧ ("numero" : String) ≠ "cidade" ∧
    ("endereco" : String) ≠ "codigo_cidade" ∧ ("numero" : String) ≠ "codigo_cidade" := by
  decide
